import Mathlib

/-!
# Verification of the Easynews→Newznab bridge

A shallow embedding, in Lean, of the parts of `server.py` and
`easynews_client.py` that the specification's claims are about: the
human-readable size parser, the raw-row normalizer `filter_and_map`, the
search entry point's parameter handling, the login/backoff session logic,
the opaque id codec (`encode_id`/`decode_id`, i.e. JSON + url-safe base64),
and the download entry point's decoding path.  Python values flowing
through the code are modelled by the inductive `JVal`; Python exceptions by
`Except PyErr`.
-/

set_option linter.unusedVariables false

namespace EZBridge

/-- JSON-like values as delivered by the upstream backend and as produced by
`json.loads`.  `jint` models a Python `int`, `jfloat` a Python `float`
(idealised as an exact rational — every value the theorems below touch is one
on which binary floating point and exact arithmetic agree), and
`jnan`/`jinf`/`jninf` the IEEE specials that `json.loads` admits through the
literals `NaN`, `Infinity` and `-Infinity`. -/
inductive JVal where
  | null
  | jbool (b : Bool)
  | jint (n : Int)
  | jfloat (q : Rat)
  | jstr (s : String)
  | jarr (l : List JVal)
  | jobj (l : List (String × JVal))
  | jnan
  | jinf
  | jninf

/-- Python exception classes raised by the modelled code paths. -/
inductive PyErr where
  | valueError
  | typeError
  | attributeError
  | keyError
  | binasciiError
  | unicodeDecodeError
  | jsonDecodeError
  | easynewsError
  | runtimeError
deriving DecidableEq

/-- Python truthiness, `bool(v)`, of a modelled value. -/
def pyTruthy : JVal → Bool
  | .null => false
  | .jbool b => b
  | .jint n => n != 0
  | .jfloat q => q != 0
  | .jstr s => s != ""
  | .jarr l => !l.isEmpty
  | .jobj l => !l.isEmpty
  | .jnan => true
  | .jinf => true
  | .jninf => true

/-- Python's short-circuiting `a or b`: the first operand when truthy,
otherwise the second. -/
def pyOr (a b : JVal) : JVal := if pyTruthy a then a else b

/-- `dict.get(k, d)` on an association list; a duplicated key reads as its last
occurrence, as in a dict built by `json.loads`. -/
def objGetD (l : List (String × JVal)) (k : String) (d : JVal) : JVal :=
  match l.foldl (fun acc p => if p.1 == k then some p.2 else acc)
      (none : Option JVal) with
  | some v => v
  | none => d

/-- `dict.get(k)` (default `None`). -/
def objGet (l : List (String × JVal)) (k : String) : JVal := objGetD l k .null

/-- `k in dict`. -/
def objHas (l : List (String × JVal)) (k : String) : Bool := l.any (·.1 == k)

/-- The characters `str.strip()` removes (the ASCII fragment; the Python
original also strips some further Unicode space characters, none of which any
claim exercises). -/
def isPyWs (c : Char) : Bool :=
  c = ' ' || c = '\t' || c = '\n' || c = '\r' || c = '\x0b' || c = '\x0c'

/-- `str.strip()` on a character list. -/
def pyStripL (l : List Char) : List Char :=
  ((l.dropWhile isPyWs).reverse.dropWhile isPyWs).reverse

/-- `str.strip()`. -/
def pyStrip (s : String) : String := String.mk (pyStripL s.data)

/-- `str.upper()` (ASCII; the Unicode special cases are unexercised). -/
def pyUpper (s : String) : String := String.mk (s.data.map Char.toUpper)

/-- `str.lower()` (ASCII; the Unicode special cases are unexercised). -/
def pyLower (s : String) : String := String.mk (s.data.map Char.toLower)

/-- Value of a list of decimal digit characters. -/
def digitsVal (l : List Char) : Nat :=
  l.foldl (fun a c => a * 10 + (c.toNat - 48)) 0

/-- Python `int(s)` on a string: surrounding whitespace, an optional sign, then
decimal digits; `none` where Python raises `ValueError`.  (Digit-group
underscores, accepted by Python, are not modelled; no claim exercises them.) -/
def pyIntParse (s : String) : Option Int :=
  let digits : List Char → Option Nat := fun l =>
    if !l.isEmpty && l.all Char.isDigit then some (digitsVal l) else none
  match pyStripL s.data with
  | '+' :: ds => (digits ds).map Int.ofNat
  | '-' :: ds => (digits ds).map (fun n => -(n : Int))
  | ds => (digits ds).map Int.ofNat

/-! ## SizeParser: `easynews_client.parse_size_to_bytes` -/

/-- Characters matched by the regex class `[\d.]`. -/
def isDigitDot (c : Char) : Bool := c.isDigit || c = '.'

/-- The match of `re.match(r'([\d.]+)\s*([KMGT]?B)', s)` at the start of `s`:
the numeric group's characters and the unit group, or `none` when the pattern
does not match.  The greedy `[\d.]+` cannot usefully backtrack because no unit
character is a digit or a dot, so the longest digit-dot run is the match. -/
def sizeMatch (l : List Char) : Option (List Char × String) :=
  if (l.takeWhile isDigitDot).isEmpty then none
  else
    match (l.dropWhile isDigitDot).dropWhile isPyWs with
    | c1 :: c2 :: _ =>
      if (c1 = 'K' || c1 = 'M' || c1 = 'G' || c1 = 'T') && c2 = 'B' then
        some (l.takeWhile isDigitDot, String.mk [c1, c2])
      else if c1 = 'B' then some (l.takeWhile isDigitDot, "B")
      else none
    | [c1] => if c1 = 'B' then some (l.takeWhile isDigitDot, "B") else none
    | [] => none

/-- The `multipliers` table of `parse_size_to_bytes` (`dict.get(unit, 1)`). -/
def multiplier : String → Int
  | "B" => 1
  | "KB" => 1024
  | "MB" => 1024 ^ 2
  | "GB" => 1024 ^ 3
  | "TB" => 1024 ^ 4
  | _ => 1

/-- `int(float(num) * mult)` for a matched numeric group `num` (digits and at
most one dot), computed by exact rational arithmetic as a scaled integer.
Python computes this in IEEE double precision; the two computations agree on
every input the theorems below evaluate (integer significands up to 2^53 and
the dyadic fraction 1.5). -/
def sizeValue (num : List Char) (mult : Int) : Int :=
  let ip := num.takeWhile (· ≠ '.')
  let fp := (num.dropWhile (· ≠ '.')).drop 1
  ((digitsVal ip : Int) * 10 ^ fp.length + (digitsVal fp : Int)) * mult
    / (10 ^ fp.length : Int)

/-- Model of `easynews_client.parse_size_to_bytes`.  An empty string and a
non-matching string yield 0; a matched numeric group that is not a valid float
literal (more than one dot, or a lone dot with no digit) makes `float()` raise
`ValueError`, which the function does not catch. -/
def parse_size_to_bytes (size_str : String) : Except PyErr Int :=
  if size_str = "" then .ok 0
  else
    match sizeMatch (pyUpper (pyStrip size_str)).data with
    | none => .ok 0
    | some (num, unit) =>
      if num.countP (· == '.') ≤ 1 && num.any Char.isDigit then
        .ok (sizeValue num (multiplier unit))
      else .error .valueError

/-- A successful `sizeMatch` returns the leading digit-dot run, which is
non-empty, and a unit drawn from the five-unit table. -/
theorem sizeMatch_some {l : List Char} {num : List Char} {u : String}
    (h : sizeMatch l = some (num, u)) :
    num = l.takeWhile isDigitDot ∧ num ≠ [] ∧ u ∈ ["B", "KB", "MB", "GB", "TB"] := by
  unfold sizeMatch at h
  split at h
  · exact absurd h (by simp)
  · rename_i hne
    have hne2 : l.takeWhile isDigitDot ≠ [] := by
      intro he; rw [he] at hne; exact hne rfl
    split at h
    · rename_i c1 c2 rest heq
      split at h
      · rename_i hc
        simp only [Option.some.injEq, Prod.mk.injEq] at h
        obtain ⟨rfl, rfl⟩ := h
        refine ⟨rfl, hne2, ?_⟩
        simp only [Bool.and_eq_true, Bool.or_eq_true, decide_eq_true_eq] at hc
        obtain ⟨hc1, rfl⟩ := hc
        rcases hc1 with ((rfl | rfl) | rfl) | rfl <;> decide
      · split at h
        · rename_i hc1
          simp only [Option.some.injEq, Prod.mk.injEq] at h
          obtain ⟨rfl, rfl⟩ := h
          exact ⟨rfl, hne2, by decide⟩
        · exact absurd h (by simp)
    · rename_i c1 heq
      split at h
      · simp only [Option.some.injEq, Prod.mk.injEq] at h
        obtain ⟨rfl, rfl⟩ := h
        exact ⟨rfl, hne2, by decide⟩
      · exact absurd h (by simp)
    · exact absurd h (by simp)

/-- A digit character is not a dot. -/
theorem digit_ne_dot {c : Char} (h : c.isDigit = true) : c ≠ '.' := by
  intro he; subst he; simp [Char.isDigit] at h

/-- C6: the claim as stated is FALSE on the code.  The input `". B"` is not a
valid size string, yet `parse_size_to_bytes` does not return 0: the regex
matches (numeric group `"."`, unit `"B"`), and `float(".")` raises
`ValueError`, which the function does not catch — contradicting "for every
other input ... it returns 0 and never raises an error". -/
theorem C6_counterexample : parse_size_to_bytes ". B" = .error .valueError := rfl

/-- C6 (amended): for every size string whose matched numeric part is a pure
digit string `n` (with `n ≤ 2^53`, where doubles are exact) and whose unit is
one of B/KB/MB/GB/TB (case-insensitive, trimmed — both folded into `sizeMatch`
over the stripped, upper-cased input), the parser returns `n` times the binary
multiplier of the unit; every input the pattern does not match yields 0; the
multipliers are the binary ones; matched units are only the five listed.
(Matched numeric parts that are not valid float literals raise `ValueError`
instead of returning 0 — the correction the counterexample forces.) -/
theorem C6_amended :
    (∀ (s : String) (num : List Char) (u : String),
        sizeMatch (pyUpper (pyStrip s)).data = some (num, u) →
        num.all Char.isDigit = true → digitsVal num ≤ 2 ^ 53 →
        parse_size_to_bytes s = .ok ((digitsVal num : Int) * multiplier u)) ∧
    (∀ s : String, sizeMatch (pyUpper (pyStrip s)).data = none →
        parse_size_to_bytes s = .ok 0) ∧
    (multiplier "B" = 1 ∧ multiplier "KB" = 1024 ∧ multiplier "MB" = 1048576 ∧
        multiplier "GB" = 1073741824 ∧ multiplier "TB" = 1099511627776) ∧
    (∀ (l num : List Char) (u : String),
        sizeMatch l = some (num, u) → u ∈ ["B", "KB", "MB", "GB", "TB"]) := by
  refine ⟨?_, ?_, by norm_num [multiplier], fun l num u h => (sizeMatch_some h).2.2⟩
  · intro s num u h hdig hbound
    have hnum := sizeMatch_some h
    have hs : s ≠ "" := by
      intro he; subst he
      simp [pyStrip, pyStripL, pyUpper, sizeMatch] at h
    have hall : ∀ c ∈ num, c ≠ '.' := fun c hc =>
      digit_ne_dot (by simpa using List.all_eq_true.mp hdig c hc)
    have hcount : num.countP (· == '.') = 0 := by
      rw [List.countP_eq_zero]
      intro a ha
      simpa using hall a ha
    have hany : num.any Char.isDigit = true := by
      rcases List.exists_mem_of_ne_nil num hnum.2.1 with ⟨a, ha⟩
      exact List.any_eq_true.mpr ⟨a, ha, List.all_eq_true.mp hdig a ha⟩
    have hred : parse_size_to_bytes s =
        if (num.countP (· == '.') ≤ 1 && num.any Char.isDigit) = true then
          Except.ok (sizeValue num (multiplier u))
        else Except.error PyErr.valueError := by
      unfold parse_size_to_bytes
      rw [if_neg hs, h]
    rw [hred, if_pos (by simp [hcount, hany])]
    have htake : num.takeWhile (· ≠ '.') = num := by
      rw [List.takeWhile_eq_self_iff]
      intro a ha; simpa using hall a ha
    have hdrop : num.dropWhile (· ≠ '.') = [] := by
      rw [List.dropWhile_eq_nil_iff]
      intro a ha; simpa using hall a ha
    simp only [sizeValue]
    rw [htake, hdrop]
    simp [digitsVal]
  · intro s h
    unfold parse_size_to_bytes
    split
    · rfl
    · rw [h]

/-- Witness for `C6_amended`: `"2 KB"` parses to 2048 bytes. -/
theorem C6_amended_witness : parse_size_to_bytes "2 KB" = .ok 2048 := by
  have h := C6_amended.1 "2 KB" ['2'] "KB" rfl rfl (by decide)
  simpa using h

/-! ## ResultNormalizer: `server.filter_and_map` -/

/-- `html.unescape`, restricted to the five basic named entities.  On strings
containing no `&` — every string the claims exercise — this agrees exactly
with the Python original, which additionally knows the full HTML5 named and
numeric entity table. -/
def htmlUnescape : List Char → List Char
  | [] => []
  | '&' :: 'a' :: 'm' :: 'p' :: ';' :: r => '&' :: htmlUnescape r
  | '&' :: 'l' :: 't' :: ';' :: r => '<' :: htmlUnescape r
  | '&' :: 'g' :: 't' :: ';' :: r => '>' :: htmlUnescape r
  | '&' :: 'q' :: 'u' :: 'o' :: 't' :: ';' :: r => '"' :: htmlUnescape r
  | '&' :: 'a' :: 'p' :: 'o' :: 's' :: ';' :: r => Char.ofNat 39 :: htmlUnescape r
  | c :: r => c :: htmlUnescape r

/-- The successive group captures of `re.findall(r'\(([^()]*)\)', text)`:
at an opening parenthesis the regex engine captures up to the next paren
character; if that character closes the group the match succeeds and scanning
resumes after it, and if it opens a new group the engine abandons the first
parenthesis and retries from the new one.  The `fuel` argument only serves
structural recursion; every step consumes at least one input character, so
`findParenGroups` below always supplies enough. -/
def findParenGroupsF : Nat → List Char → List String
  | 0, _ => []
  | _ + 1, [] => []
  | fuel + 1, '(' :: rest =>
    match rest.dropWhile (fun c => !(c = '(' || c = ')')) with
    | ')' :: after =>
      String.mk (rest.takeWhile (fun c => !(c = '(' || c = ')'))) ::
        findParenGroupsF fuel after
    | other => findParenGroupsF fuel other
  | fuel + 1, _ :: rest => findParenGroupsF fuel rest

/-- `re.findall(r'\(([^()]*)\)', text)`. -/
def findParenGroups (l : List Char) : List String := findParenGroupsF (l.length + 1) l

/-- The loop `for candidate in reversed(matches): ...` of `_normalize_title`:
the first candidate (scanning from the last match) whose strip is non-empty. -/
def firstNonEmptyStripped : List String → Option String
  | [] => none
  | m :: rest =>
    if pyStrip m ≠ "" then some (pyStrip m) else firstNonEmptyStripped rest

/-- Model of `server._normalize_title` (the argument is the Python `str` the
caller passes; `processRow` models the exception a non-str would raise). -/
def normalizeTitle (raw : String) : String :=
  let text := pyStrip (String.mk (htmlUnescape raw.data))
  if text = "" then text
  else ((firstNonEmptyStripped (findParenGroups text.data).reverse).getD text)

/-- Python `str(v)` as interpolated by the f-string at server.py line 269.
Exact for strings, `None`, bools and ints; the float and container
representations are approximate (no claim evaluates them). -/
def pyStrOf : JVal → String
  | .jstr s => s
  | .null => "None"
  | .jbool b => if b then "True" else "False"
  | .jint n => toString n
  | .jfloat q => toString q
  | .jnan => "nan"
  | .jinf => "inf"
  | .jninf => "-inf"
  | .jarr _ => "[...]"
  | .jobj _ => "[...]"

/-- The local variables of one `filter_and_map` loop iteration after the
shape-dependent extraction block (server.py lines 205-236). -/
structure RawFields where
  hash_id : JVal
  subject : JVal
  filename_no_ext : JVal
  ext : JVal
  size : JVal
  poster : JVal
  posted_raw : JVal
  sig : JVal
  display_fn : JVal
  extension_field : JVal

/-- The extraction block of `filter_and_map`: positional reads for an
array-shaped row, keyed reads (named key with stringified-index fallback) for
a dict-shaped row, everything left at its initializer for any other shape.
Note that an array-shaped row never assigns `size`: it keeps the initializer
`0`. -/
def extractFields : JVal → RawFields
  | .jarr it =>
    { hash_id := if it.length ≥ 12 then it.getD 0 .null else .null
      subject := if it.length ≥ 12 then it.getD 6 .null else .null
      filename_no_ext := if it.length ≥ 12 then it.getD 10 .null else .null
      ext := if it.length ≥ 12 then it.getD 11 .null else .null
      size := .jint 0
      poster := if it.length > 7 then it.getD 7 .null else .null
      posted_raw := if it.length > 8 then it.getD 8 .null else .null
      sig := .null
      display_fn := .null
      extension_field := .null }
  | .jobj kv =>
    { hash_id := pyOr (objGet kv "hash") (pyOr (objGet kv "0") (objGet kv "id"))
      subject := pyOr (objGet kv "subject") (objGet kv "6")
      filename_no_ext := pyOr (objGet kv "filename") (objGet kv "10")
      ext := pyOr (objGet kv "ext") (objGet kv "11")
      size := objGetD kv "size" (.jint 0)
      poster := pyOr (objGet kv "poster") (objGet kv "7")
      posted_raw := pyOr (objGet kv "dtime") (pyOr (objGet kv "date") (objGet kv "12"))
      sig := objGet kv "sig"
      display_fn := pyOr (objGet kv "fn") (objGet kv "filename")
      extension_field := pyOr (objGet kv "extension") (objGet kv "ext") }
  | _ =>
    { hash_id := .null, subject := .null, filename_no_ext := .null, ext := .null
      size := .jint 0, poster := .null, posted_raw := .null, sig := .null
      display_fn := .null, extension_field := .null }

/-- The size coercion of server.py lines 246-251: keep an `isinstance(_, int)`
value (ints and bools), otherwise `int(size)` with any exception caught to 0.
Floats truncate toward zero, strings parse per `int(str)`, everything else
(None, containers, NaN, infinities) raises and becomes 0.  (That a bool-sized
row would store `True` rather than `1` in the emitted dict is not preserved —
numerically the two compare identically and no claim reads it back.) -/
def sizeCoerce : JVal → Int
  | .jint n => n
  | .jbool b => if b then 1 else 0
  | .jfloat q => Int.tdiv q.num (q.den : Int)
  | .jstr s => (pyIntParse s).getD 0
  | _ => 0

/-- One normalized record as appended by `filter_and_map` (a Python dict with
keys hash/filename/ext/sig/size/title/poster/posted); `sample` tracks the
extra key only the synthetic fallback item of the search route carries. -/
structure Rec where
  hash : JVal
  filename : JVal
  ext : JVal
  sig : JVal
  size : Int
  title : String
  poster : JVal
  posted : JVal
  sample : Bool

/-- `str.replace(" - ", "-")`: the left-to-right non-overlapping replacement
Python performs, specialised to this three-character pattern. -/
def collapseDash : List Char → List Char
  | ' ' :: '-' :: ' ' :: rest => '-' :: collapseDash rest
  | c :: rest => c :: collapseDash rest
  | [] => []

/-- Python `str.split(sep)` for a one-character separator: splits at every
occurrence, keeping empty segments (`"a  b".split(" ") == ["a", "", "b"]`). -/
def splitOnChar (sep : Char) : List Char → List (List Char)
  | [] => [[]]
  | c :: rest =>
    if c = sep then [] :: splitOnChar sep rest
    else
      match splitOnChar sep rest with
      | [] => [[c]]
      | g :: gs => (c :: g) :: gs

/-- `s.startswith(".")`. -/
def startsWithDot (s : String) : Bool :=
  match s.data with
  | '.' :: _ => true
  | _ => false

/-- Lines 257-266 of server.py: the sanitized composite built from a cleaned
display filename — collapse `" - "` to `"-"`, split on the space character,
drop empty segments, join with `"."`. -/
def sanitizeDisplay (cleaned : String) : String :=
  String.mk (List.intercalate ['.']
    ((splitOnChar ' ' (collapseDash cleaned.data)).filter (· ≠ [])))

/-- Lines 256-266 of server.py: the display-filename branch of the title
derivation.  `.ok none` means "title stays None" (fall through to the subject
fallback); the errors model the `AttributeError` Python raises when a truthy
non-string reaches `.strip()` or `.startswith()`. -/
def displayTitle (display_fn extension_field ext : JVal) : Except PyErr (Option String) :=
  match display_fn with
  | .jstr dfn =>
    if pyStrip dfn = "" then .ok none
    else
      match pyOr extension_field (pyOr ext (.jstr "")) with
      | .jstr e =>
        if e ≠ "" then
          .ok (some (sanitizeDisplay (pyStrip dfn) ++
            (if startsWithDot e then e else "." ++ e)))
        else .ok (some (sanitizeDisplay (pyStrip dfn)))
      | v =>
        if pyTruthy v then .error .attributeError
        else .ok (some (sanitizeDisplay (pyStrip dfn)))
  | v =>
    if pyTruthy v then .error .attributeError else .ok none

/-- Lines 256-270 of server.py: derive the title for one row.  `ext` and
`filename_no_ext` are the reassigned local variables at that point; a title
from the display branch takes precedence, else the HTML-unescaped subject (or
the base-name/extension concatenation) is normalized.  The `TypeError` models
`html.unescape` on a truthy non-string subject. -/
def deriveTitle (f : RawFields) (ext filename_no_ext : JVal) : Except PyErr String :=
  match displayTitle f.display_fn f.extension_field ext with
  | .error e => .error e
  | .ok (some t) => .ok t
  | .ok none =>
    if pyTruthy f.subject then
      match f.subject with
      | .jstr s => .ok (normalizeTitle s)
      | _ => .error .typeError
    else .ok (normalizeTitle (pyStrOf filename_no_ext ++ pyStrOf ext))

/-- A truthy display filename whose strip is non-empty always produces a title
or an error, never a fall-through to the subject fallback. -/
theorem displayTitle_ne_none {dfn : String} {ef ext : JVal}
    (hne : pyStrip dfn ≠ "") :
    displayTitle (.jstr dfn) ef ext ≠ .ok none := by
  intro h
  simp only [displayTitle] at h
  rw [if_neg hne] at h
  split at h
  · split at h <;> simp at h
  · split at h <;> simp at h

/-- The body of the `for` loop of `server.filter_and_map` for one raw row:
`.ok none` models `continue`, `.ok (some r)` models `out.append(r)`,
`.error e` models an exception escaping the loop. -/
def processRow (min_bytes : Int) (it : JVal) : Except PyErr (Option Rec) :=
  let f := extractFields it
  if !pyTruthy f.hash_id || !pyTruthy f.ext then .ok none
  else
    let filename_no_ext := pyOr f.filename_no_ext (.jstr "")
    let ext1 := pyOr f.ext (.jstr "")
    let ext2 := if pyTruthy f.extension_field && !pyTruthy ext1 then f.extension_field else ext1
    let size := sizeCoerce f.size
    if size < min_bytes then .ok none
    else
      match deriveTitle f ext2 filename_no_ext with
      | .error e => .error e
      | .ok title =>
        .ok (some
          { hash := f.hash_id, filename := filename_no_ext, ext := ext2
            sig := f.sig, size := size, title := title, poster := f.poster
            posted := f.posted_raw, sample := false })

/-- The accumulation loop of `filter_and_map` over the rows of `data`. -/
def fmLoop (min_bytes : Int) : List JVal → Except PyErr (List Rec)
  | [] => .ok []
  | it :: rest =>
    match processRow min_bytes it with
    | .error e => .error e
    | .ok none => fmLoop min_bytes rest
    | .ok (some r) =>
      match fmLoop min_bytes rest with
      | .error e => .error e
      | .ok out => .ok (r :: out)

/-- `json_data.get("data", [])`, required to be iterable.  A non-dict receiver
raises `AttributeError`; a `"data"` value that is not a list is modelled as a
`TypeError` (Python would iterate a string or dict element-wise instead of
raising — a corner no claim and no realistic upstream response reaches). -/
def dataRows : JVal → Except PyErr (List JVal)
  | .jobj kv =>
    if objHas kv "data" then
      match objGet kv "data" with
      | .jarr l => .ok l
      | _ => .error .typeError
    else .ok []
  | _ => .error .attributeError

/-- Model of `server.filter_and_map`. -/
def filter_and_map (json_data : JVal) (min_bytes : Int) : Except PyErr (List Rec) :=
  match dataRows json_data with
  | .error e => .error e
  | .ok rows => fmLoop min_bytes rows

/-! ## Search entry point: the `t=search` branch of `server.api` -/

/-- Python list slicing `xs[a:b]`, including negative-index wrap-around. -/
def pySlice {α : Type} (xs : List α) (a b : Int) : List α :=
  let n : Int := xs.length
  let lo := if a < 0 then max 0 (n + a) else min a n
  let hi := if b < 0 then max 0 (n + b) else min b n
  (xs.take hi.toNat).drop lo.toNat

/-- The synthetic fallback item built at server.py lines 329-341 (its `posted`
field is `int(time.time())`, passed in as `now`). -/
def sampleItem (now : Int) : Rec :=
  { hash := .jstr "SAMPLEHASH1234567890", filename := .jstr "sample.matrix.clip"
    ext := .jstr ".mkv", sig := .null, size := 700 * 1024 * 1024
    title := "Sample Matrix Clip", poster := .jstr "sample@example.com"
    posted := .jint now, sample := true }

/-- The minimum-size computation of server.py lines 319-326: absent or falsy
`minsize` defaults to 100 MB, a parse failure falls back to 100 MB, and a
parsed value is clamped from below by `max(100, ·)`; the result is converted
to bytes with binary multipliers. -/
def minBytesOf (minsize : Option String) : Int :=
  (match minsize with
   | none => 100
   | some p =>
     if p = "" then 100
     else
       match pyIntParse p with
       | some n => max 100 n
       | none => 100) * 1024 * 1024

/-- Outcome of the search route: the rendered item list, or the 503 returned
when `client()` fails. -/
inductive SearchOut where
  | page (items : List Rec)
  | unavailable

/-- Model of the `t=search` branch of `server.api` (lines 310-354, up to the
list of items the XML renderer walks).  `now` stands for `time.time()`,
`sessionUp` for whether `client()` succeeds, and `backend` for the JSON body
`c.search(...)` returns; the pair's second component records whether the
session manager / upstream backend was contacted (`client()` reached). -/
def api_search (q : String) (limit offset : Int) (minsize : Option String)
    (now : Int) (sessionUp : Bool) (backend : JVal) :
    Except PyErr SearchOut × Bool :=
  if pyStrip q = "" || pyLower (pyStrip q) = "test" then
    (.ok (.page (pySlice [sampleItem now] offset (offset + limit))), false)
  else if !sessionUp then (.ok .unavailable, true)
  else
    match filter_and_map backend (minBytesOf minsize) with
    | .error e => (.error e, true)
    | .ok items => (.ok (.page (pySlice items offset (offset + limit))), true)

/-- The array-shaped row of the spec's end-to-end example
(`[hash,_,_,_,"1.5 GB",_,"The Matrix",poster,ts,_,"The.Matrix.1999","mkv"]`). -/
def exampleArrayRow : JVal :=
  .jarr [.jstr "abc123hash", .null, .null, .null, .jstr "1.5 GB", .null,
    .jstr "The Matrix", .jstr "poster@example.com", .jint 1700000000, .null,
    .jstr "The.Matrix.1999", .jstr "mkv"]

/-! ## Claims about the normalizer and the search entry point -/

/-- A row that `processRow` turns into a record has a truthy hash and a truthy
extension (they are the extracted `hash_id` and, since it is truthy, the
unchanged extracted `ext`). -/
theorem processRow_some_truthy {mb : Int} {it : JVal} {r : Rec}
    (h : processRow mb it = .ok (some r)) :
    pyTruthy r.hash = true ∧ pyTruthy r.ext = true := by
  unfold processRow at h
  by_cases hg :
      (!pyTruthy (extractFields it).hash_id || !pyTruthy (extractFields it).ext) = true
  · rw [if_pos hg] at h; cases h
  · rw [if_neg hg] at h
    simp only [Bool.or_eq_true, Bool.not_eq_true', not_or, Bool.not_eq_false] at hg
    obtain ⟨hh, he⟩ := hg
    simp only [pyOr, he, if_pos] at h
    simp only [Bool.not_true, Bool.and_false, Bool.false_and, if_neg] at h
    split at h
    · cases h
    · split at h
      · cases h
      · rename_i t ht
        simp only [Except.ok.injEq, Option.some.injEq] at h
        subst h
        exact ⟨hh, he⟩

/-- Over a row list, every record an `.ok` run of the loop emits has truthy
hash and extension. -/
theorem fmLoop_mem_truthy {mb : Int} {rows : List JVal} {out : List Rec}
    (h : fmLoop mb rows = .ok out) :
    ∀ r ∈ out, pyTruthy r.hash = true ∧ pyTruthy r.ext = true := by
  induction rows generalizing out with
  | nil =>
    unfold fmLoop at h
    simp only [Except.ok.injEq] at h
    subst h
    intro r hr
    cases hr
  | cons it rest ih =>
    unfold fmLoop at h
    split at h
    · cases h
    · exact ih h
    · rename_i r0 hp
      split at h
      · cases h
      · rename_i out0 hloop
        simp only [Except.ok.injEq] at h
        subst h
        intro r hr
        rcases List.mem_cons.mp hr with rfl | hr2
        · exact processRow_some_truthy hp
        · exact ih hloop r hr2

/-- C5: the normalizer never emits a record with an empty (or missing) hash or
extension — every emitted record's hash and extension are truthy Python
values, so in particular neither is `None` nor the empty string — and a row
whose extracted hash or extension is falsy is skipped with `continue`
(`.ok none`): silently, never surfaced as an error. -/
theorem C5_no_empty_hash_ext :
    (∀ (jd : JVal) (mb : Int) (out : List Rec), filter_and_map jd mb = .ok out →
      ∀ r ∈ out, pyTruthy r.hash = true ∧ pyTruthy r.ext = true) ∧
    (∀ (mb : Int) (it : JVal),
      pyTruthy (extractFields it).hash_id = false ∨
        pyTruthy (extractFields it).ext = false →
      processRow mb it = .ok none) := by
  constructor
  · intro jd mb out h
    unfold filter_and_map at h
    split at h
    · cases h
    · exact fmLoop_mem_truthy h
  · intro mb it h
    unfold processRow
    rw [if_pos]
    rcases h with h | h <;> simp [h]

/-- Witness for `C5_no_empty_hash_ext`: the example keyed row is emitted with
truthy hash and extension, and a row with no hash is silently skipped. -/
theorem C5_no_empty_hash_ext_witness :
    (pyTruthy (JVal.jstr "h") = true ∧ pyTruthy (JVal.jstr "mkv") = true) ∧
    processRow 0 (.jobj [("ext", .jstr "mkv")]) = .ok none := by
  constructor
  · have h := C5_no_empty_hash_ext.1
      (.jobj [("data", .jarr [.jobj [("hash", .jstr "h"), ("ext", .jstr "mkv"),
        ("fn", .jstr "The Matrix 1999"), ("size", .jint 2000000000)]])])
      104857600
      [{ hash := .jstr "h", filename := .jstr "", ext := .jstr "mkv",
         sig := .null, size := 2000000000, title := "The.Matrix.1999.mkv",
         poster := .null, posted := .null, sample := false }]
      rfl
    exact h _ (List.mem_singleton.mpr rfl)
  · exact C5_no_empty_hash_ext.2 0 _ (Or.inl rfl)

/-- C1: the claim is FALSE on the code.  Searching `"matrix"` against a
backend returning exactly the spec's array-shaped row (position 4 holding
`"1.5 GB"`) under the default minimum-size threshold yields the EMPTY result
page, not one record with `sizeBytes = 1610612736`: `filter_and_map` never
reads an array row's position-4 size string, so `size` keeps its initializer 0
and the row is dropped by the 100 MiB threshold. -/
theorem C1_counterexample :
    api_search "matrix" 100 0 none 1700000001 true
        (.jobj [("data", .jarr [exampleArrayRow])]) =
      (.ok (.page []), true) := rfl

/-- C1 (amended): for array-shaped rows the normalizer does not consult
SizeParser at all — `size` keeps its initializer 0, so under any positive
byte threshold every array-shaped row is dropped, and the spec's example
search returns no results.  SizeParser itself would indeed map `"1.5 GB"` to
1610612736; only the unused client-side `parse_results` calls it. -/
theorem C1_amended :
    (∀ (l : List JVal) (mb : Int), 0 < mb → processRow mb (.jarr l) = .ok none) ∧
    parse_size_to_bytes "1.5 GB" = .ok 1610612736 ∧
    filter_and_map (.jobj [("data", .jarr [exampleArrayRow])]) (minBytesOf none) =
      .ok [] := by
  refine ⟨?_, rfl, rfl⟩
  intro l mb hmb
  unfold processRow
  by_cases hg :
      (!pyTruthy (extractFields (.jarr l)).hash_id ||
        !pyTruthy (extractFields (.jarr l)).ext) = true
  · rw [if_pos hg]
  · rw [if_neg hg]
    have hsize : (extractFields (.jarr l)).size = .jint 0 := rfl
    rw [if_pos]
    simp [hsize, sizeCoerce]
    omega

/-- Witness for `C1_amended`: a concrete array row is dropped under the
default threshold. -/
theorem C1_amended_witness : processRow 104857600 (.jarr []) = .ok none :=
  C1_amended.1 [] 104857600 (by norm_num)

/-- C9: the claim is FALSE as universally stated over search requests: a
`q=test` request with `offset=1` renders no items at all (the synthetic list
is built, but the `items[offset : offset + limit]` trim empties it), so the
entry point does not return "exactly one sample record" for every such
request. -/
theorem C9_counterexample :
    api_search "test" 100 1 none 5 true .null = (.ok (.page []), false) := rfl

/-- C9 (amended): for every search request whose query text is empty,
whitespace-only, or `"test"` case-insensitively, the entry point builds the
fixed synthetic single-sample list (sample flag set, hash
`SAMPLEHASH1234567890`, size 700 MiB) and never contacts the session manager
or the upstream backend; the response renders `items[offset : offset+limit]`
of that list, so with the default `offset=0`, `limit=100` exactly the one
sample record is returned. -/
theorem C9_amended :
    ∀ (q : String) (limit offset : Int) (ms : Option String) (now : Int)
      (sess : Bool) (backend : JVal),
      pyStrip q = "" ∨ pyLower (pyStrip q) = "test" →
      api_search q limit offset ms now sess backend =
        (.ok (.page (pySlice [sampleItem now] offset (offset + limit))), false) ∧
      (sampleItem now).sample = true ∧
      (sampleItem now).hash = .jstr "SAMPLEHASH1234567890" ∧
      (sampleItem now).size = 734003200 ∧
      api_search q 100 0 ms now sess backend =
        (.ok (.page [sampleItem now]), false) := by
  intro q limit offset ms now sess backend h
  have hq : (pyStrip q = "" || pyLower (pyStrip q) = "test") = true := by
    rcases h with h | h <;> simp [h]
  refine ⟨?_, rfl, rfl, rfl, ?_⟩
  · unfold api_search
    rw [if_pos]
    simpa using hq
  · unfold api_search
    rw [if_pos]
    · rfl
    · simpa using hq

/-- Witness for `C9_amended`: the `q="test"` request with default paging. -/
theorem C9_amended_witness :
    api_search "test" 100 0 none 5 true .null =
      (.ok (.page [sampleItem 5]), false) :=
  (C9_amended "test" 100 0 none 5 true .null (Or.inr rfl)).2.2.2.2

/-- C10: the effective minimum-size byte threshold of the search entry point
is never below 100 MiB (104857600 bytes): a parsed `minsize` below 100 is
raised to 100 MB, a non-numeric one falls back to 100 MB, and an absent one
defaults to 100 MB. -/
theorem C10_min_threshold :
    (∀ ms : Option String, 104857600 ≤ minBytesOf ms) ∧
    (∀ (s : String) (n : Int), pyIntParse s = some n → n < 100 →
      minBytesOf (some s) = 104857600) ∧
    (∀ s : String, pyIntParse s = none → minBytesOf (some s) = 104857600) ∧
    minBytesOf none = 104857600 := by
  refine ⟨?_, ?_, ?_, rfl⟩
  · intro ms
    unfold minBytesOf
    split
    · norm_num
    · split
      · norm_num
      · split
        · rename_i n hn
          have h1 : (100 : Int) ≤ max 100 n := le_max_left 100 n
          have h2 : (100 : Int) * 1024 * 1024 ≤ max 100 n * 1024 * 1024 := by
            have := mul_le_mul_of_nonneg_right h1 (by norm_num : (0 : Int) ≤ 1024 * 1024)
            linarith [this]
          linarith [h2]
        · norm_num
  · intro s n hp hn
    have hs : s ≠ "" := by
      intro he; subst he; cases hp
    unfold minBytesOf
    simp [hs, hp, max_eq_left (le_of_lt hn)]
  · intro s hp
    unfold minBytesOf
    by_cases hs : s = ""
    · simp [hs]
    · simp [hs, hp]

/-- Witness for `C10_min_threshold`: a below-minimum and a junk `minsize`. -/
theorem C10_min_threshold_witness :
    minBytesOf (some "50") = 104857600 ∧ minBytesOf (some "12abc") = 104857600 := by
  exact ⟨C10_min_threshold.2.1 "50" 50 rfl (by norm_num),
    C10_min_threshold.2.2.1 "12abc" rfl⟩

/-! ## Claim C7: title derivation -/

/-- Python `str.split()`-on-any-whitespace, keeping no empty segments at
separators is NOT what this returns — like `splitOnChar` it keeps empty
segments, and the caller filters.  Used only by `specSanitizeDisplay`. -/
def splitOnWs : List Char → List (List Char)
  | [] => [[]]
  | c :: rest =>
    if isPyWs c then [] :: splitOnWs rest
    else
      match splitOnWs rest with
      | [] => [[c]]
      | g :: gs => (c :: g) :: gs

/-- The sanitization as the SPEC's words state it (for comparison with the
code): collapse `" - "` to `"-"`, split on WHITESPACE, join the segments with
`"."`, and append the extension prefixed with `"."` when not already. -/
def specSanitizeDisplay (dfn ext : String) : String :=
  String.mk (List.intercalate ['.']
      ((splitOnWs (collapseDash (pyStrip dfn).data)).filter (· ≠ []))) ++
    (if startsWithDot ext then ext else "." ++ ext)

/-- C7: the claim is FALSE on the code at display filenames containing
non-space whitespace: the code splits on the space character only
(`normalized.split(" ")`), not on whitespace as the claim's parenthetical
states, so the display filename `"A\tB"` with extension `mkv` is emitted with
title `"A\tB.mkv"`, while the claim's described sanitization gives
`"A.B.mkv"`. -/
theorem C7_counterexample :
    filter_and_map
        (.jobj [("data", .jarr [.jobj [("hash", .jstr "h"), ("ext", .jstr "mkv"),
          ("fn", .jstr "A\tB"), ("size", .jint 2000000000)]])])
        104857600 =
      .ok [{ hash := .jstr "h", filename := .jstr "", ext := .jstr "mkv",
             sig := .null, size := 2000000000, title := "A\tB.mkv",
             poster := .null, posted := .null, sample := false }] ∧
    specSanitizeDisplay "A\tB" "mkv" = "A.B.mkv" ∧
    ("A\tB.mkv" : String) ≠ "A.B.mkv" := ⟨rfl, rfl, by decide⟩

/-- C7 (amended): title derivation follows the documented precedence with the
code's split-on-space (not split-on-whitespace) sanitization: a present
display filename is sanitized and the subject is then never consulted;
display filename `"The Matrix 1999"` with extension `mkv` yields
`"The.Matrix.1999.mkv"`; with no display filename a truthy string subject is
HTML-unescaped and replaced by the last non-empty parenthesized group, so
subject `"Some.Release (The Matrix)"` alone yields `"The Matrix"`. -/
theorem C7_amended :
    (∀ (f : RawFields) (ext fne : JVal) (s : JVal) (dfn : String),
      f.display_fn = .jstr dfn → pyStrip dfn ≠ "" →
      deriveTitle f ext fne = deriveTitle { f with subject := s } ext fne) ∧
    (∀ (f : RawFields) (ext fne : JVal) (s : String),
      pyTruthy f.display_fn = false → f.subject = .jstr s → s ≠ "" →
      deriveTitle f ext fne = .ok (normalizeTitle s)) ∧
    filter_and_map
        (.jobj [("data", .jarr [.jobj [("hash", .jstr "h"), ("ext", .jstr "mkv"),
          ("fn", .jstr "The Matrix 1999"), ("size", .jint 2000000000)]])])
        104857600 =
      .ok [{ hash := .jstr "h", filename := .jstr "", ext := .jstr "mkv",
             sig := .null, size := 2000000000, title := "The.Matrix.1999.mkv",
             poster := .null, posted := .null, sample := false }] ∧
    filter_and_map
        (.jobj [("data", .jarr [.jobj [("hash", .jstr "h"), ("ext", .jstr "mkv"),
          ("subject", .jstr "Some.Release (The Matrix)"),
          ("size", .jint 2000000000)]])])
        104857600 =
      .ok [{ hash := .jstr "h", filename := .jstr "", ext := .jstr "mkv",
             sig := .null, size := 2000000000, title := "The Matrix",
             poster := .null, posted := .null, sample := false }] := by
  refine ⟨?_, ?_, rfl, rfl⟩
  · intro f ext fne s dfn hdfn hne
    unfold deriveTitle
    dsimp only
    rw [hdfn]
    cases hI : displayTitle (.jstr dfn) f.extension_field ext with
    | error e => rfl
    | ok t =>
      cases t with
      | some v => rfl
      | none => exact absurd hI (displayTitle_ne_none hne)
  · intro f ext fne s hfalse hsubj hne
    unfold deriveTitle
    have hinner : displayTitle f.display_fn f.extension_field ext = .ok none := by
      unfold displayTitle
      cases hd : f.display_fn <;> rw [hd] at hfalse <;>
        simp_all [pyTruthy, pyStrip, pyStripL]
    rw [hinner, hsubj]
    have ht : pyTruthy (JVal.jstr s) = true := by simp [pyTruthy, hne]
    rw [if_pos ht]

/-- Witness for `C7_amended`: the display branch ignores the subject on a
concrete row, and the fallback branch extracts the parenthesized title. -/
theorem C7_amended_witness :
    deriveTitle
        { hash_id := .jstr "h", subject := .null, filename_no_ext := .jstr "",
          ext := .jstr "mkv", size := .jint 0, poster := .null,
          posted_raw := .null, sig := .null,
          display_fn := .jstr "The Matrix 1999", extension_field := .jstr "mkv" }
        (.jstr "mkv") (.jstr "") =
      deriveTitle
        { hash_id := .jstr "h", subject := .jstr "ignored", filename_no_ext := .jstr "",
          ext := .jstr "mkv", size := .jint 0, poster := .null,
          posted_raw := .null, sig := .null,
          display_fn := .jstr "The Matrix 1999", extension_field := .jstr "mkv" }
        (.jstr "mkv") (.jstr "") ∧
    deriveTitle
        { hash_id := .jstr "h", subject := .jstr "Some.Release (The Matrix)",
          filename_no_ext := .jstr "", ext := .jstr "mkv", size := .jint 0,
          poster := .null, posted_raw := .null, sig := .null,
          display_fn := .null, extension_field := .null }
        (.jstr "mkv") (.jstr "") = .ok "The Matrix" := by
  constructor
  · exact C7_amended.1 _ (.jstr "mkv") (.jstr "") (.jstr "ignored")
      "The Matrix 1999" rfl (by decide)
  · have h := C7_amended.2.1
      { hash_id := .jstr "h", subject := .jstr "Some.Release (The Matrix)",
        filename_no_ext := .jstr "", ext := .jstr "mkv", size := .jint 0,
        poster := .null, posted_raw := .null, sig := .null,
        display_fn := .null, extension_field := .null }
      (.jstr "mkv") (.jstr "") "Some.Release (The Matrix)" rfl rfl (by decide)
    rw [h]
    rfl

/-! ## SessionManager: `server.client()` (claim C4) -/

/-- The module-level session state of server.py (lines 22-29): whether
`_CLIENT` is set, `_CLIENT_LAST_LOGIN`, `_CLIENT_FAIL_COUNT`,
`_CLIENT_FAILED_UNTIL`.  Times are whole seconds. -/
structure SessState where
  hasClient : Bool
  lastLogin : Nat
  failCount : Nat
  failedUntil : Nat
deriving DecidableEq

/-- The outcome of one `client()` call. -/
inductive AcqOut where
  | ok
  | backoffFast
  | loginFail
  | noCreds
deriving DecidableEq

/-- The initial module state. -/
def initSession : SessState := ⟨false, 0, 0, 0⟩

/-- Model of `server.client()` (lines 63-109).  `creds` is whether
`EASYNEWS_USER`/`EASYNEWS_PASS` are set; `login1`/`login2` are the outcomes of
the (up to two) upstream login attempts; the several `time.time()` reads in
one call are collapsed to the single `now`.  Returns the new module state, the
call outcome, and the number of login attempts actually issued upstream. -/
def clientAcquire (creds : Bool) (st : SessState) (now : Nat)
    (login1 login2 : Bool) : SessState × AcqOut × Nat :=
  if !creds then (st, .noCreds, 0)
  else if st.failedUntil ≠ 0 ∧ now < st.failedUntil then (st, .backoffFast, 0)
  else if !st.hasClient then
    if login1 then
      ({ hasClient := true, lastLogin := now, failCount := 0, failedUntil := 0 }, .ok, 1)
    else
      ({ hasClient := false, lastLogin := st.lastLogin,
         failCount := min (st.failCount + 1) 10,
         failedUntil := now + min (5 * 2 ^ (min (st.failCount + 1) 10 - 1)) 300 },
       .loginFail, 1)
  else if st.lastLogin + 600 < now then
    if login1 then ({ st with lastLogin := now }, .ok, 1)
    else if login2 then ({ st with lastLogin := now }, .ok, 2)
    else
      ({ hasClient := false, lastLogin := st.lastLogin,
         failCount := min (st.failCount + 1) 10,
         failedUntil := now + min (5 * 2 ^ (min (st.failCount + 1) 10 - 1)) 300 },
       .loginFail, 2)
  else (st, .ok, 0)

/-- The module state after `k` consecutive failed logins, each attempted at
the exact moment the previous backoff window expires. -/
def afterFailures : Nat → SessState
  | 0 => initSession
  | k + 1 =>
    (clientAcquire true (afterFailures k) (afterFailures k).failedUntil false false).1

/-- Saturating the failure counter at 10 never changes the backoff window,
because the window already hits its 300-second ceiling from the 7th failure
on (5·2^6 = 320 > 300). -/
theorem backoff_saturation (k : Nat) :
    min (5 * 2 ^ (min (k + 1) 10 - 1)) 300 = min (5 * 2 ^ k) 300 := by
  rcases le_or_lt (k + 1) 10 with h | h
  · rw [min_eq_left h]
    simp
  · have hm : min (k + 1) 10 = 10 := min_eq_right (by omega)
    rw [hm]
    have h2 : (300 : Nat) ≤ 5 * 2 ^ k := by
      have h3 : 2 ^ 9 ≤ 2 ^ k := Nat.pow_le_pow_right (by norm_num) (by omega)
      calc (300 : Nat) ≤ 5 * 2 ^ 9 := by norm_num
        _ ≤ 5 * 2 ^ k := by omega
    rw [min_eq_right (show (300 : Nat) ≤ 5 * 2 ^ (10 - 1) by norm_num),
      min_eq_right h2]

/-- Invariant along a failure streak: the counter is `min k 10` and the client
handle stays discarded. -/
theorem afterFailures_invariant (k : Nat) :
    (afterFailures k).failCount = min k 10 ∧ (afterFailures k).hasClient = false := by
  induction k with
  | zero => exact ⟨rfl, rfl⟩
  | succ k ih =>
    obtain ⟨hc, hcl⟩ := ih
    constructor
    · show (clientAcquire true (afterFailures k) (afterFailures k).failedUntil
        false false).1.failCount = min (k + 1) 10
      unfold clientAcquire
      rw [if_neg (by simp)]
      rw [if_neg (by simp)]
      rw [if_pos (by simp [hcl])]
      simp [hc]
      omega
    · show (clientAcquire true (afterFailures k) (afterFailures k).failedUntil
        false false).1.hasClient = false
      unfold clientAcquire
      rw [if_neg (by simp)]
      rw [if_neg (by simp)]
      rw [if_pos (by simp [hcl])]
      simp

/-- C4: (i) while the backoff window is active every acquire fails fast with
the backoff outcome, leaves the state untouched and makes zero upstream login
attempts; (ii) after `k+1` consecutive login failures the failure counter is
`min (k+1) 10` (saturation at the fixed bound 10) and the window set by the
last failure has length `min (5·2^k) 300` — the claim's `base·2^(k-1)` for
the `(k+1)`-st failure, capped at the 300-second ceiling; (iii) once the
window has elapsed, an acquire issues a login attempt again. -/
theorem C4_backoff :
    (∀ (st : SessState) (now : Nat) (l1 l2 : Bool),
      st.failedUntil ≠ 0 → now < st.failedUntil →
      clientAcquire true st now l1 l2 = (st, .backoffFast, 0)) ∧
    (∀ k : Nat,
      (afterFailures (k + 1)).failCount = min (k + 1) 10 ∧
      (afterFailures (k + 1)).failedUntil =
        (afterFailures k).failedUntil + min (5 * 2 ^ k) 300) ∧
    (∀ (k : Nat) (now : Nat) (l1 l2 : Bool),
      (afterFailures k).failedUntil ≤ now →
      (clientAcquire true (afterFailures k) now l1 l2).2.2 = 1) := by
  refine ⟨?_, ?_, ?_⟩
  · intro st now l1 l2 h1 h2
    unfold clientAcquire
    rw [if_neg (by simp), if_pos ⟨h1, h2⟩]
  · intro k
    obtain ⟨hc, hcl⟩ := afterFailures_invariant k
    constructor
    · exact (afterFailures_invariant (k + 1)).1
    · show (clientAcquire true (afterFailures k) (afterFailures k).failedUntil
        false false).1.failedUntil = _
      unfold clientAcquire
      rw [if_neg (by simp)]
      rw [if_neg (by simp)]
      rw [if_pos (by simp [hcl])]
      simp only [Bool.false_eq_true, if_false]
      rw [hc]
      have he : (min k 10 + 1) ⊓ 10 = (k + 1) ⊓ 10 := by omega
      rw [he, backoff_saturation k]
  · intro k now l1 l2 hle
    obtain ⟨hc, hcl⟩ := afterFailures_invariant k
    unfold clientAcquire
    rw [if_neg (by simp)]
    rw [if_neg (by simp; omega)]
    rw [if_pos (by simp [hcl])]
    split <;> rfl

/-- Witness for `C4_backoff`: after three consecutive failures (window 20 s,
`failedUntil` 35), an acquire at time 20 fails fast with no login attempt,
the third window has length `min (5·2^2) 300 = 20`, and an acquire at time 35
issues a login attempt. -/
theorem C4_backoff_witness :
    clientAcquire true (afterFailures 3) 20 true true =
      (afterFailures 3, .backoffFast, 0) ∧
    (afterFailures 3).failedUntil = (afterFailures 2).failedUntil + 20 ∧
    (clientAcquire true (afterFailures 3) 35 true true).2.2 = 1 := by
  refine ⟨C4_backoff.1 (afterFailures 3) 20 true true (by decide) (by decide), ?_, ?_⟩
  · have h := (C4_backoff.2.1 2).2
    simpa using h
  · exact C4_backoff.2.2 3 35 true true (by decide)

/-! ## ResponseCache (claim C8) -/

/-- Modelled from the spec: the repository's source under `src/` contains no
ResponseCache implementation (spec §2, §3 "CacheEntry" and §4.5 describe one);
this structure and its operations follow the spec's words — `put` stores a
payload under an absolute expiry `now + ttl`, `get` returns a stored payload
while unexpired and treats an entry with `now > expiresAt` as absent. -/
structure ResponseCache where
  entries : List (String × String × Nat)

/-- Modelled from the spec: `put(key, payload, ttl)` at time `now` stores with
absolute expiry `now + ttl`, overwriting any previous entry for the key
(idempotent last-writer-wins overwrite, spec §9). -/
def ResponseCache.put (c : ResponseCache) (key payload : String) (ttl now : Nat) :
    ResponseCache :=
  ⟨(key, payload, now + ttl) :: c.entries.filter (fun e => e.1 ≠ key)⟩

/-- Modelled from the spec: `get(key)` at time `now` returns the payload if
present and unexpired, else signals absence (expired entries are inert). -/
def ResponseCache.get (c : ResponseCache) (key : String) (now : Nat) :
    Option String :=
  match c.entries.find? (fun e => e.1 == key) with
  | some (_, payload, exp) => if now > exp then none else some payload
  | none => none

/-- C8: a `put(key, payload, ttl)` followed immediately by `get(key)` returns
the stored payload, and once `ttl` has elapsed (`now2 > now + ttl`) the same
`get` reports absence. -/
theorem C8_cache_put_get :
    ∀ (c : ResponseCache) (key payload : String) (ttl now now2 : Nat),
      (c.put key payload ttl now).get key now = some payload ∧
      (now2 > now + ttl → (c.put key payload ttl now).get key now2 = none) := by
  intro c key payload ttl now now2
  constructor
  · unfold ResponseCache.put ResponseCache.get
    simp [List.find?]
  · intro h
    unfold ResponseCache.put ResponseCache.get
    simp [List.find?]
    omega

/-- Witness for `C8_cache_put_get`: concrete put/get round trip and expiry. -/
theorem C8_cache_put_get_witness :
    ((⟨[]⟩ : ResponseCache).put "k" "payload" 60 100).get "k" 100 = some "payload" ∧
    ((⟨[]⟩ : ResponseCache).put "k" "payload" 60 100).get "k" 161 = none := by
  exact ⟨(C8_cache_put_get ⟨[]⟩ "k" "payload" 60 100 161).1,
    (C8_cache_put_get ⟨[]⟩ "k" "payload" 60 100 161).2 (by norm_num)⟩

/-! ## IdCodec (claims C2 and C3): UTF-8 layer

`json.dumps(payload, ensure_ascii=False).encode()` produces the UTF-8 bytes of
the serialized text, and `decode_id` reverses it with `bytes.decode()` (strict
UTF-8).  Bytes are modelled as `Nat` values below 256. -/

/-- UTF-8 encoding of one scalar value (Lean `Char`s are exactly the Unicode
scalar values, as are the code points of a Python `str` built by `json.dumps`
from our payloads). -/
def utf8EncodeChar (c : Char) : List Nat :=
  if c.toNat < 0x80 then [c.toNat]
  else if c.toNat < 0x800 then
    [0xC0 + c.toNat / 64, 0x80 + c.toNat % 64]
  else if c.toNat < 0x10000 then
    [0xE0 + c.toNat / 4096, 0x80 + c.toNat / 64 % 64, 0x80 + c.toNat % 64]
  else
    [0xF0 + c.toNat / 262144, 0x80 + c.toNat / 4096 % 64,
     0x80 + c.toNat / 64 % 64, 0x80 + c.toNat % 64]

/-- `str.encode("utf-8")`. -/
def utf8Encode (l : List Char) : List Nat :=
  l.foldr (fun c acc => utf8EncodeChar c ++ acc) []

/-- Is `b` a UTF-8 continuation byte? -/
def isCont (b : Nat) : Bool := 0x80 ≤ b && b < 0xC0

/-- Scalar value of a two-byte sequence. -/
def val2 (b b1 : Nat) : Nat := (b - 0xC0) * 64 + (b1 - 0x80)

/-- Scalar value of a three-byte sequence. -/
def val3 (b b1 b2 : Nat) : Nat := (b - 0xE0) * 4096 + (b1 - 0x80) * 64 + (b2 - 0x80)

/-- Scalar value of a four-byte sequence. -/
def val4 (b b1 b2 b3 : Nat) : Nat :=
  (b - 0xF0) * 262144 + (b1 - 0x80) * 4096 + (b2 - 0x80) * 64 + (b3 - 0x80)

/-- Valid continuation and value checks for a three-byte sequence: no overlong
form, no surrogate. -/
def ok3 (b b1 b2 : Nat) : Bool :=
  isCont b1 && isCont b2 && decide (0x800 ≤ val3 b b1 b2) &&
    (decide (val3 b b1 b2 < 0xD800) || decide (0xDFFF < val3 b b1 b2))

/-- Valid continuation and value checks for a four-byte sequence. -/
def ok4 (b b1 b2 b3 : Nat) : Bool :=
  isCont b1 && isCont b2 && isCont b3 &&
    decide (0x10000 ≤ val4 b b1 b2 b3) && decide (val4 b b1 b2 b3 < 0x110000)

/-- Strict UTF-8 decoding (`bytes.decode()`): rejects stray continuation
bytes, overlong forms, surrogates and values beyond U+10FFFF, exactly as
CPython's strict codec does.  The four explicit list shapes only serve
structural recursion: each repeats the same lead-byte dispatch on however many
bytes remain. -/
def utf8Decode : List Nat → Option (List Char)
  | [] => some []
  | [b] =>
    if b < 0x80 then (utf8Decode []).map (fun cs => Char.ofNat b :: cs) else none
  | [b, b1] =>
    if b < 0x80 then (utf8Decode [b1]).map (fun cs => Char.ofNat b :: cs)
    else if b < 0xC2 then none
    else if b < 0xE0 then
      (if isCont b1 then
        (utf8Decode []).map (fun cs => Char.ofNat (val2 b b1) :: cs)
      else none)
    else none
  | [b, b1, b2] =>
    if b < 0x80 then (utf8Decode [b1, b2]).map (fun cs => Char.ofNat b :: cs)
    else if b < 0xC2 then none
    else if b < 0xE0 then
      (if isCont b1 then
        (utf8Decode [b2]).map (fun cs => Char.ofNat (val2 b b1) :: cs)
      else none)
    else if b < 0xF0 then
      (if ok3 b b1 b2 then
        (utf8Decode []).map (fun cs => Char.ofNat (val3 b b1 b2) :: cs)
      else none)
    else none
  | b :: b1 :: b2 :: b3 :: rest =>
    if b < 0x80 then
      (utf8Decode (b1 :: b2 :: b3 :: rest)).map (fun cs => Char.ofNat b :: cs)
    else if b < 0xC2 then none
    else if b < 0xE0 then
      (if isCont b1 then
        (utf8Decode (b2 :: b3 :: rest)).map (fun cs => Char.ofNat (val2 b b1) :: cs)
      else none)
    else if b < 0xF0 then
      (if ok3 b b1 b2 then
        (utf8Decode (b3 :: rest)).map (fun cs => Char.ofNat (val3 b b1 b2) :: cs)
      else none)
    else if b < 0xF5 then
      (if ok4 b b1 b2 b3 then
        (utf8Decode rest).map (fun cs => Char.ofNat (val4 b b1 b2 b3) :: cs)
      else none)
    else none

/-- Unfolding: an ASCII byte decodes to itself in front of the rest. -/
theorem utf8Decode_lead1 {b : Nat} (rest : List Nat) (h : b < 0x80) :
    utf8Decode (b :: rest) = (utf8Decode rest).map (fun cs => Char.ofNat b :: cs) := by
  rcases rest with _ | ⟨x, _ | ⟨y, _ | ⟨z, t⟩⟩⟩ <;>
    (simp only [utf8Decode]; rw [if_pos h])

/-- Unfolding: a two-byte lead with a continuation byte decodes to `val2`. -/
theorem utf8Decode_lead2 {b b1 : Nat} (rest : List Nat)
    (h0 : 0xC2 ≤ b) (h1 : b < 0xE0) (hc : isCont b1 = true) :
    utf8Decode (b :: b1 :: rest) =
      (utf8Decode rest).map (fun cs => Char.ofNat (val2 b b1) :: cs) := by
  rcases rest with _ | ⟨x, _ | ⟨y, t⟩⟩ <;>
    (simp only [utf8Decode]
     rw [if_neg (by omega), if_neg (by omega), if_pos h1, if_pos hc])

/-- Unfolding: a three-byte lead with valid continuations decodes to `val3`. -/
theorem utf8Decode_lead3 {b b1 b2 : Nat} (rest : List Nat)
    (h0 : 0xE0 ≤ b) (h1 : b < 0xF0) (hok : ok3 b b1 b2 = true) :
    utf8Decode (b :: b1 :: b2 :: rest) =
      (utf8Decode rest).map (fun cs => Char.ofNat (val3 b b1 b2) :: cs) := by
  rcases rest with _ | ⟨x, t⟩ <;>
    (simp only [utf8Decode]
     rw [if_neg (by omega), if_neg (by omega), if_neg (by omega), if_pos h1,
       if_pos hok])

/-- Unfolding: a four-byte lead with valid continuations decodes to `val4`. -/
theorem utf8Decode_lead4 {b b1 b2 b3 : Nat} (rest : List Nat)
    (h0 : 0xF0 ≤ b) (h1 : b < 0xF5) (hok : ok4 b b1 b2 b3 = true) :
    utf8Decode (b :: b1 :: b2 :: b3 :: rest) =
      (utf8Decode rest).map (fun cs => Char.ofNat (val4 b b1 b2 b3) :: cs) := by
  simp only [utf8Decode]
  rw [if_neg (by omega), if_neg (by omega), if_neg (by omega), if_neg (by omega),
    if_pos h1, if_pos hok]

/-- Decoding after encoding one character at the front of already-decodable
bytes prepends exactly that character. -/
theorem utf8Decode_encodeChar (c : Char) (rest : List Nat) (cs : List Char)
    (h : utf8Decode rest = some cs) :
    utf8Decode (utf8EncodeChar c ++ rest) = some (c :: cs) := by
  have hv : Nat.isValidChar c.toNat := c.valid
  have hofnat : Char.ofNat c.toNat = c := Char.ofNat_toNat c
  have hvr : c.toNat < 0xD800 ∨ (0xDFFF < c.toNat ∧ c.toNat < 0x110000) := hv
  by_cases h1 : c.toNat < 0x80
  · rw [show utf8EncodeChar c = [c.toNat] from by
      unfold utf8EncodeChar; rw [if_pos h1]]
    rw [List.singleton_append, utf8Decode_lead1 rest h1, h]
    simp [hofnat]
  · by_cases h2 : c.toNat < 0x800
    · rw [show utf8EncodeChar c = [0xC0 + c.toNat / 64, 0x80 + c.toNat % 64] from by
        unfold utf8EncodeChar; rw [if_neg h1, if_pos h2]]
      rw [show ([0xC0 + c.toNat / 64, 0x80 + c.toNat % 64] : List Nat) ++ rest =
        (0xC0 + c.toNat / 64) :: (0x80 + c.toNat % 64) :: rest from rfl]
      rw [utf8Decode_lead2 rest (by omega) (by omega)
        (by simp only [isCont, Bool.and_eq_true, decide_eq_true_eq]; omega)]
      rw [h]
      have hval : val2 (0xC0 + c.toNat / 64) (0x80 + c.toNat % 64) = c.toNat := by
        unfold val2; omega
      simp [hval, hofnat]
    · by_cases h3 : c.toNat < 0x10000
      · rw [show utf8EncodeChar c =
            [0xE0 + c.toNat / 4096, 0x80 + c.toNat / 64 % 64, 0x80 + c.toNat % 64] from by
          unfold utf8EncodeChar; rw [if_neg h1, if_neg h2, if_pos h3]]
        rw [show ([0xE0 + c.toNat / 4096, 0x80 + c.toNat / 64 % 64,
            0x80 + c.toNat % 64] : List Nat) ++ rest =
          (0xE0 + c.toNat / 4096) :: (0x80 + c.toNat / 64 % 64) ::
            (0x80 + c.toNat % 64) :: rest from rfl]
        have hval : val3 (0xE0 + c.toNat / 4096) (0x80 + c.toNat / 64 % 64)
            (0x80 + c.toNat % 64) = c.toNat := by
          unfold val3; omega
        rw [utf8Decode_lead3 rest (by omega) (by omega)
          (by simp only [ok3, isCont, Bool.and_eq_true, Bool.or_eq_true,
                decide_eq_true_eq]
              rw [hval]
              refine ⟨⟨⟨⟨by omega, by omega⟩, by omega, by omega⟩, by omega⟩, ?_⟩
              omega)]
        rw [h]
        simp [hval, hofnat]
      · rw [show utf8EncodeChar c =
            [0xF0 + c.toNat / 262144, 0x80 + c.toNat / 4096 % 64,
             0x80 + c.toNat / 64 % 64, 0x80 + c.toNat % 64] from by
          unfold utf8EncodeChar; rw [if_neg h1, if_neg h2, if_neg h3]]
        rw [show ([0xF0 + c.toNat / 262144, 0x80 + c.toNat / 4096 % 64,
            0x80 + c.toNat / 64 % 64, 0x80 + c.toNat % 64] : List Nat) ++ rest =
          (0xF0 + c.toNat / 262144) :: (0x80 + c.toNat / 4096 % 64) ::
            (0x80 + c.toNat / 64 % 64) :: (0x80 + c.toNat % 64) :: rest from rfl]
        have hval : val4 (0xF0 + c.toNat / 262144) (0x80 + c.toNat / 4096 % 64)
            (0x80 + c.toNat / 64 % 64) (0x80 + c.toNat % 64) = c.toNat := by
          unfold val4; omega
        rw [utf8Decode_lead4 rest (by omega) (by omega)
          (by simp only [ok4, isCont, Bool.and_eq_true, decide_eq_true_eq]
              rw [hval]
              omega)]
        rw [h]
        simp [hval, hofnat]

/-- UTF-8 round trip: strict decoding inverts encoding. -/
theorem utf8Decode_encode (l : List Char) : utf8Decode (utf8Encode l) = some l := by
  induction l with
  | nil => rfl
  | cons c cs ih => exact utf8Decode_encodeChar c (utf8Encode cs) cs ih

/-! ## IdCodec: url-safe base64 layer

`base64.urlsafe_b64encode(...).decode().rstrip("=")` on the encode side;
`base64.urlsafe_b64decode(enc + "=" * (-len(enc) % 4))` on the decode side. -/

/-- The url-safe base64 alphabet (RFC 4648 §5), as used by
`base64.urlsafe_b64encode`. -/
def b64Alphabet : List Char :=
  "ABCDEFGHIJKLMNOPQRSTUVWXYZabcdefghijklmnopqrstuvwxyz0123456789-_".data

/-- Symbol for a 6-bit value. -/
def b64Char (n : Nat) : Char := b64Alphabet.getD n '?'

/-- 6-bit value of a symbol, `none` for characters outside the alphabet. -/
def b64Index (c : Char) : Option Nat := b64Alphabet.findIdx? (· = c)

/-- `base64.b64encode` with the url-safe alphabet (padding included). -/
def b64EncodeBytes : List Nat → List Char
  | [] => []
  | [b0] => [b64Char (b0 / 4), b64Char (b0 % 4 * 16), '=', '=']
  | [b0, b1] =>
    [b64Char (b0 / 4), b64Char (b0 % 4 * 16 + b1 / 16), b64Char (b1 % 16 * 4), '=']
  | b0 :: b1 :: b2 :: rest =>
    b64Char (b0 / 4) :: b64Char (b0 % 4 * 16 + b1 / 16) ::
      b64Char (b1 % 16 * 4 + b2 / 64) :: b64Char (b2 % 64) :: b64EncodeBytes rest

/-- Result of decoding one 4-symbol group. -/
inductive QuadRes where
  | bad
  | fin (bytes : List Nat)
  | more (bytes : List Nat)

/-- Decode one 4-symbol base64 group: a full group of three bytes, a final
padded group of one or two bytes (Python ignores the unused low bits of the
last symbol rather than validating them, and so does this), or a failure. -/
def decodeQuad (c0 c1 c2 c3 : Char) : QuadRes :=
  match b64Index c0, b64Index c1 with
  | some i0, some i1 =>
    if c2 = '=' then
      if c3 = '=' then .fin [i0 * 4 + i1 / 16] else .bad
    else
      match b64Index c2 with
      | some i2 =>
        if c3 = '=' then .fin [i0 * 4 + i1 / 16, i1 % 16 * 16 + i2 / 4]
        else
          match b64Index c3 with
          | some i3 =>
            .more [i0 * 4 + i1 / 16, i1 % 16 * 16 + i2 / 4, i2 % 4 * 64 + i3]
          | none => .bad
      | none => .bad
  | _, _ => .bad

/-- `base64.urlsafe_b64decode` on a correctly padded string over the clean
alphabet.  CPython's legacy decoder additionally skips characters outside the
alphabet and stops at interior padding; those lax corners are not modelled —
no theorem below feeds such a string, and `decode_id`'s inputs of interest
(its own encoder's output plus the concrete strings in the C3 theorems) are
all clean. -/
def b64DecodeBytes : List Char → Option (List Nat)
  | [] => some []
  | c0 :: c1 :: c2 :: c3 :: rest =>
    match decodeQuad c0 c1 c2 c3 with
    | .bad => none
    | .fin bs => if rest = [] then some bs else none
    | .more bs => (b64DecodeBytes rest).map (fun t => bs ++ t)
  | _ => none

/-- `str.rstrip("=")`. -/
def rstripEq (l : List Char) : List Char :=
  (l.reverse.dropWhile (· = '=')).reverse

/-- URL-safe characters: the unreserved alphanumerics plus `-` and `_`. -/
def isUrlSafeChar (c : Char) : Bool :=
  (65 ≤ c.toNat && c.toNat ≤ 90) || (97 ≤ c.toNat && c.toNat ≤ 122) ||
    (48 ≤ c.toNat && c.toNat ≤ 57) || c.toNat == 45 || c.toNat == 95

/-- Each alphabet symbol decodes back to its value. -/
theorem b64Index_b64Char : ∀ n : Fin 64, b64Index (b64Char n.val) = some n.val := by
  decide

/-- No alphabet symbol is the padding character. -/
theorem b64Char_ne_pad : ∀ n : Fin 64, b64Char n.val ≠ '=' := by decide

/-- Every alphabet symbol is URL-safe. -/
theorem b64Char_urlsafe : ∀ n : Fin 64, isUrlSafeChar (b64Char n.val) = true := by
  decide

/-- URL-safe characters are ASCII. -/
theorem urlsafe_ascii {c : Char} (h : isUrlSafeChar c = true) : c.toNat < 0x80 := by
  simp only [isUrlSafeChar, Bool.or_eq_true, Bool.and_eq_true,
    decide_eq_true_eq, beq_iff_eq] at h
  omega

/-- Base64 round trip on byte lists (bytes are below 256). -/
theorem b64_roundtrip : ∀ bs : List Nat, (∀ b ∈ bs, b < 256) →
    b64DecodeBytes (b64EncodeBytes bs) = some bs
  | [], _ => rfl
  | [b0], h => by
    have hb0 : b0 < 256 := h b0 (by simp)
    have e0 : b64Index (b64Char (b0 / 4)) = some (b0 / 4) :=
      b64Index_b64Char ⟨b0 / 4, by omega⟩
    have e1 : b64Index (b64Char (b0 % 4 * 16)) = some (b0 % 4 * 16) :=
      b64Index_b64Char ⟨b0 % 4 * 16, by omega⟩
    simp only [b64EncodeBytes, b64DecodeBytes]
    rw [show decodeQuad (b64Char (b0 / 4)) (b64Char (b0 % 4 * 16)) '=' '=' =
        .fin [b0 / 4 * 4 + b0 % 4 * 16 / 16] from by
      unfold decodeQuad
      rw [e0, e1]
      dsimp only
      simp]
    simp
    omega
  | [b0, b1], h => by
    have hb0 : b0 < 256 := h b0 (by simp)
    have hb1 : b1 < 256 := h b1 (by simp)
    have e0 : b64Index (b64Char (b0 / 4)) = some (b0 / 4) :=
      b64Index_b64Char ⟨b0 / 4, by omega⟩
    have e1 : b64Index (b64Char (b0 % 4 * 16 + b1 / 16)) =
        some (b0 % 4 * 16 + b1 / 16) :=
      b64Index_b64Char ⟨b0 % 4 * 16 + b1 / 16, by omega⟩
    have e2 : b64Index (b64Char (b1 % 16 * 4)) = some (b1 % 16 * 4) :=
      b64Index_b64Char ⟨b1 % 16 * 4, by omega⟩
    have n2 : b64Char (b1 % 16 * 4) ≠ '=' := b64Char_ne_pad ⟨b1 % 16 * 4, by omega⟩
    simp only [b64EncodeBytes, b64DecodeBytes]
    rw [show decodeQuad (b64Char (b0 / 4)) (b64Char (b0 % 4 * 16 + b1 / 16))
        (b64Char (b1 % 16 * 4)) '=' =
        .fin [b0 / 4 * 4 + (b0 % 4 * 16 + b1 / 16) / 16,
          (b0 % 4 * 16 + b1 / 16) % 16 * 16 + b1 % 16 * 4 / 4] from by
      unfold decodeQuad
      rw [e0, e1]
      dsimp only
      rw [if_neg n2, e2]
      simp]
    simp
    omega
  | b0 :: b1 :: b2 :: rest, h => by
    have hb0 : b0 < 256 := h b0 (by simp)
    have hb1 : b1 < 256 := h b1 (by simp)
    have hb2 : b2 < 256 := h b2 (by simp)
    have ih := b64_roundtrip rest (fun b hb =>
      h b (List.mem_cons_of_mem _ (List.mem_cons_of_mem _ (List.mem_cons_of_mem _ hb))))
    have e0 : b64Index (b64Char (b0 / 4)) = some (b0 / 4) :=
      b64Index_b64Char ⟨b0 / 4, by omega⟩
    have e1 : b64Index (b64Char (b0 % 4 * 16 + b1 / 16)) =
        some (b0 % 4 * 16 + b1 / 16) :=
      b64Index_b64Char ⟨b0 % 4 * 16 + b1 / 16, by omega⟩
    have e2 : b64Index (b64Char (b1 % 16 * 4 + b2 / 64)) =
        some (b1 % 16 * 4 + b2 / 64) :=
      b64Index_b64Char ⟨b1 % 16 * 4 + b2 / 64, by omega⟩
    have e3 : b64Index (b64Char (b2 % 64)) = some (b2 % 64) :=
      b64Index_b64Char ⟨b2 % 64, by omega⟩
    have n2 : b64Char (b1 % 16 * 4 + b2 / 64) ≠ '=' :=
      b64Char_ne_pad ⟨b1 % 16 * 4 + b2 / 64, by omega⟩
    have n3 : b64Char (b2 % 64) ≠ '=' := b64Char_ne_pad ⟨b2 % 64, by omega⟩
    simp only [b64EncodeBytes, b64DecodeBytes]
    rw [show decodeQuad (b64Char (b0 / 4)) (b64Char (b0 % 4 * 16 + b1 / 16))
        (b64Char (b1 % 16 * 4 + b2 / 64)) (b64Char (b2 % 64)) =
        .more [b0 / 4 * 4 + (b0 % 4 * 16 + b1 / 16) / 16,
          (b0 % 4 * 16 + b1 / 16) % 16 * 16 + (b1 % 16 * 4 + b2 / 64) / 4,
          (b1 % 16 * 4 + b2 / 64) % 4 * 64 + b2 % 64] from by
      unfold decodeQuad
      rw [e0, e1]
      dsimp only
      rw [if_neg n2, e2]
      dsimp only
      rw [if_neg n3, e3]]
    simp [ih]
    omega

/-- `rstrip("=")` over an append whose left part contains no padding char. -/
theorem rstripEq_append (xs ys : List Char) (hxs : ∀ c ∈ xs, c ≠ '=') :
    rstripEq (xs ++ ys) = xs ++ rstripEq ys := by
  unfold rstripEq
  rw [List.reverse_append, List.dropWhile_append]
  have hdw : xs.reverse.dropWhile (· = '=') = xs.reverse := by
    cases hxr : xs.reverse with
    | nil => rfl
    | cons c t =>
      have hc : c ∈ xs := by
        have h1 : c ∈ xs.reverse := by rw [hxr]; exact List.mem_cons_self c t
        simpa using h1
      rw [List.dropWhile_cons_of_neg]
      simpa using hxs c hc
  split
  · rename_i hemp
    have h2 : ys.reverse.dropWhile (· = '=') = [] := by
      simpa using hemp
    rw [hdw, h2]
    simp
  · simp

/-- The stripped encoding consists of URL-safe non-padding symbols, and
re-adding `"=" * (-len % 4)` — the padding `decode_id` restores — recovers the
padded encoding exactly. -/
theorem b64Encode_strip_spec : ∀ bs : List Nat, (∀ b ∈ bs, b < 256) →
    (∀ c ∈ rstripEq (b64EncodeBytes bs), isUrlSafeChar c = true ∧ c ≠ '=') ∧
    rstripEq (b64EncodeBytes bs) ++
      List.replicate ((4 - (rstripEq (b64EncodeBytes bs)).length % 4) % 4) '=' =
      b64EncodeBytes bs
  | [], _ => by
    refine ⟨?_, rfl⟩
    intro c hc
    cases hc
  | [b0], h => by
    have hb0 : b0 < 256 := h b0 (by simp)
    have hu0 : isUrlSafeChar (b64Char (b0 / 4)) = true :=
      b64Char_urlsafe ⟨b0 / 4, by omega⟩
    have hu1 : isUrlSafeChar (b64Char (b0 % 4 * 16)) = true :=
      b64Char_urlsafe ⟨b0 % 4 * 16, by omega⟩
    have hn0 : b64Char (b0 / 4) ≠ '=' := b64Char_ne_pad ⟨b0 / 4, by omega⟩
    have hn1 : b64Char (b0 % 4 * 16) ≠ '=' := b64Char_ne_pad ⟨b0 % 4 * 16, by omega⟩
    have hs : rstripEq (b64EncodeBytes [b0]) =
        [b64Char (b0 / 4), b64Char (b0 % 4 * 16)] := by
      show rstripEq ([b64Char (b0 / 4), b64Char (b0 % 4 * 16)] ++ ['=', '=']) = _
      rw [rstripEq_append _ _ (by
        intro c hc
        simp only [List.mem_cons, List.not_mem_nil, or_false] at hc
        rcases hc with rfl | rfl <;> assumption)]
      rfl
    rw [hs]
    constructor
    · intro c hc
      simp only [List.mem_cons, List.not_mem_nil, or_false] at hc
      rcases hc with rfl | rfl <;> exact ⟨by assumption, by assumption⟩
    · rfl
  | [b0, b1], h => by
    have hb0 : b0 < 256 := h b0 (by simp)
    have hb1 : b1 < 256 := h b1 (by simp)
    have hu0 : isUrlSafeChar (b64Char (b0 / 4)) = true :=
      b64Char_urlsafe ⟨b0 / 4, by omega⟩
    have hu1 : isUrlSafeChar (b64Char (b0 % 4 * 16 + b1 / 16)) = true :=
      b64Char_urlsafe ⟨b0 % 4 * 16 + b1 / 16, by omega⟩
    have hu2 : isUrlSafeChar (b64Char (b1 % 16 * 4)) = true :=
      b64Char_urlsafe ⟨b1 % 16 * 4, by omega⟩
    have hn0 : b64Char (b0 / 4) ≠ '=' := b64Char_ne_pad ⟨b0 / 4, by omega⟩
    have hn1 : b64Char (b0 % 4 * 16 + b1 / 16) ≠ '=' :=
      b64Char_ne_pad ⟨b0 % 4 * 16 + b1 / 16, by omega⟩
    have hn2 : b64Char (b1 % 16 * 4) ≠ '=' := b64Char_ne_pad ⟨b1 % 16 * 4, by omega⟩
    have hs : rstripEq (b64EncodeBytes [b0, b1]) =
        [b64Char (b0 / 4), b64Char (b0 % 4 * 16 + b1 / 16), b64Char (b1 % 16 * 4)] := by
      show rstripEq ([b64Char (b0 / 4), b64Char (b0 % 4 * 16 + b1 / 16),
        b64Char (b1 % 16 * 4)] ++ ['=']) = _
      rw [rstripEq_append _ _ (by
        intro c hc
        simp only [List.mem_cons, List.not_mem_nil, or_false] at hc
        rcases hc with rfl | rfl | rfl <;> assumption)]
      rfl
    rw [hs]
    constructor
    · intro c hc
      simp only [List.mem_cons, List.not_mem_nil, or_false] at hc
      rcases hc with rfl | rfl | rfl <;> exact ⟨by assumption, by assumption⟩
    · rfl
  | b0 :: b1 :: b2 :: rest, h => by
    have hb0 : b0 < 256 := h b0 (by simp)
    have hb1 : b1 < 256 := h b1 (by simp)
    have hb2 : b2 < 256 := h b2 (by simp)
    obtain ⟨ihmem, iheq⟩ := b64Encode_strip_spec rest (fun b hb =>
      h b (List.mem_cons_of_mem _ (List.mem_cons_of_mem _ (List.mem_cons_of_mem _ hb))))
    have hu0 : isUrlSafeChar (b64Char (b0 / 4)) = true :=
      b64Char_urlsafe ⟨b0 / 4, by omega⟩
    have hu1 : isUrlSafeChar (b64Char (b0 % 4 * 16 + b1 / 16)) = true :=
      b64Char_urlsafe ⟨b0 % 4 * 16 + b1 / 16, by omega⟩
    have hu2 : isUrlSafeChar (b64Char (b1 % 16 * 4 + b2 / 64)) = true :=
      b64Char_urlsafe ⟨b1 % 16 * 4 + b2 / 64, by omega⟩
    have hu3 : isUrlSafeChar (b64Char (b2 % 64)) = true :=
      b64Char_urlsafe ⟨b2 % 64, by omega⟩
    have hn0 : b64Char (b0 / 4) ≠ '=' := b64Char_ne_pad ⟨b0 / 4, by omega⟩
    have hn1 : b64Char (b0 % 4 * 16 + b1 / 16) ≠ '=' :=
      b64Char_ne_pad ⟨b0 % 4 * 16 + b1 / 16, by omega⟩
    have hn2 : b64Char (b1 % 16 * 4 + b2 / 64) ≠ '=' :=
      b64Char_ne_pad ⟨b1 % 16 * 4 + b2 / 64, by omega⟩
    have hn3 : b64Char (b2 % 64) ≠ '=' := b64Char_ne_pad ⟨b2 % 64, by omega⟩
    have hs : rstripEq (b64EncodeBytes (b0 :: b1 :: b2 :: rest)) =
        [b64Char (b0 / 4), b64Char (b0 % 4 * 16 + b1 / 16),
         b64Char (b1 % 16 * 4 + b2 / 64), b64Char (b2 % 64)] ++
          rstripEq (b64EncodeBytes rest) := by
      show rstripEq ([b64Char (b0 / 4), b64Char (b0 % 4 * 16 + b1 / 16),
        b64Char (b1 % 16 * 4 + b2 / 64), b64Char (b2 % 64)] ++
          b64EncodeBytes rest) = _
      rw [rstripEq_append _ _ (by
        intro c hc
        simp only [List.mem_cons, List.not_mem_nil, or_false] at hc
        rcases hc with rfl | rfl | rfl | rfl <;> assumption)]
    rw [hs]
    constructor
    · intro c hc
      rcases List.mem_append.mp hc with h1 | h1
      · simp only [List.mem_cons, List.not_mem_nil, or_false] at h1
        rcases h1 with rfl | rfl | rfl | rfl <;> exact ⟨by assumption, by assumption⟩
      · exact ihmem c h1
    · rw [List.length_append]
      have hlen : (4 + (rstripEq (b64EncodeBytes rest)).length % 4) % 4 =
          (rstripEq (b64EncodeBytes rest)).length % 4 := by omega
      rw [show ([b64Char (b0 / 4), b64Char (b0 % 4 * 16 + b1 / 16),
        b64Char (b1 % 16 * 4 + b2 / 64), b64Char (b2 % 64)].length) = 4 from rfl]
      rw [List.append_assoc]
      rw [show (4 - (4 + (rstripEq (b64EncodeBytes rest)).length) % 4) % 4 =
        (4 - (rstripEq (b64EncodeBytes rest)).length % 4) % 4 from by omega]
      rw [iheq]
      rfl

/-! ## IdCodec: JSON layer

The encode side models `json.dumps(payload, ensure_ascii=False)` for the exact
payload dict `encode_id` builds (keys in insertion order, default separators,
`ensure_ascii=False` string escaping); the decode side models `json.loads` on
arbitrary text. -/

/-- The decoded form of an opaque reference with the fields `encode_id`
serializes: hash, filename, ext, optional sig, optional title, and the
`sample` marker key that is present only when truthy. -/
structure DownloadReference where
  hash : String
  filename : String
  ext : String
  sig : Option String
  title : Option String
  sample : Bool

/-- Lowercase hex digit, as in `'\\u%04x' % i`. -/
def hexDigit (n : Nat) : Char := "0123456789abcdef".data.getD n '0'

/-- The opening and closing object braces (written via their code points). -/
def obraceC : Char := Char.ofNat 123

/-- See `obraceC`. -/
def cbraceC : Char := Char.ofNat 125

/-- `json.dumps` escaping of one character with `ensure_ascii=False`
(CPython's `ESCAPE` regex and `ESCAPE_DCT`): quote, backslash and the control
characters; everything else passes through raw. -/
def jsonEscapeChar (c : Char) : List Char :=
  if c = '"' then ['\\', '"']
  else if c = '\\' then ['\\', '\\']
  else if c = '\x08' then ['\\', 'b']
  else if c = '\x0c' then ['\\', 'f']
  else if c = '\n' then ['\\', 'n']
  else if c = '\r' then ['\\', 'r']
  else if c = '\t' then ['\\', 't']
  else if c.toNat < 0x20 then
    ['\\', 'u', '0', '0', hexDigit (c.toNat / 16), hexDigit (c.toNat % 16)]
  else [c]

/-- `json.dumps` escaping of a string body. -/
def jsonEscape (l : List Char) : List Char :=
  l.foldr (fun c acc => jsonEscapeChar c ++ acc) []

/-- A JSON string literal. -/
def jstrLit (s : String) : List Char := '"' :: (jsonEscape s.data ++ ['"'])

/-- `null` or a string literal, for the two optional fields. -/
def jsonNullOrStr : Option String → List Char
  | none => "null".data
  | some s => jstrLit s

/-- `json.dumps(payload, ensure_ascii=False)` for the payload dict of
`server.encode_id` (insertion order hash, filename, ext, sig, title, and
`sample: true` only when the record's sample flag is set), written in the
nested-cons normal form the parser lemmas consume. -/
def dumpsPayload (r : DownloadReference) : List Char :=
  obraceC :: (jstrLit "hash" ++ ':' :: ' ' :: (jstrLit r.hash ++ ',' :: ' ' ::
    (jstrLit "filename" ++ ':' :: ' ' :: (jstrLit r.filename ++ ',' :: ' ' ::
    (jstrLit "ext" ++ ':' :: ' ' :: (jstrLit r.ext ++ ',' :: ' ' ::
    (jstrLit "sig" ++ ':' :: ' ' :: (jsonNullOrStr r.sig ++ ',' :: ' ' ::
    (jstrLit "title" ++ ':' :: ' ' ::
      (jsonNullOrStr r.title ++
        (if r.sample then
          ',' :: ' ' :: (jstrLit "sample" ++ ':' :: ' ' :: ("true".data ++ [cbraceC]))
        else [cbraceC])))))))))))

/-- Model of `server.encode_id` on a reference record:
`base64.urlsafe_b64encode(json.dumps(payload).encode()).decode().rstrip("=")`. -/
def encode_id (r : DownloadReference) : String :=
  String.mk (rstripEq (b64EncodeBytes (utf8Encode (dumpsPayload r))))

/-- `None`-or-string as a JSON value. -/
def optStrJ : Option String → JVal
  | none => .null
  | some s => .jstr s

/-- The payload dict of `encode_id` as the JSON value `decode_id` recovers. -/
def payloadJVal (r : DownloadReference) : JVal :=
  .jobj ([("hash", .jstr r.hash), ("filename", .jstr r.filename),
    ("ext", .jstr r.ext), ("sig", optStrJ r.sig), ("title", optStrJ r.title)] ++
    (if r.sample then [("sample", .jbool true)] else []))

/-- Value of one hex digit character, either case. -/
def hexVal (c : Char) : Option Nat :=
  if 48 ≤ c.toNat ∧ c.toNat ≤ 57 then some (c.toNat - 48)
  else if 97 ≤ c.toNat ∧ c.toNat ≤ 102 then some (c.toNat - 87)
  else if 65 ≤ c.toNat ∧ c.toNat ≤ 70 then some (c.toNat - 55)
  else none

/-- Read one escape sequence after a backslash (`json`'s `py_scanstring`):
returns the decoded character and the number of input characters consumed.
Python keeps a lone surrogate from `\\uXXXX` as an unpaired code unit in the
result string; such a string has no counterpart here, so the model rejects it
— no theorem exercises that corner, and `encode_id` never emits `\\u` beyond
`\\u001f`. -/
def readEscape : List Char → Option (Char × Nat)
  | 'u' :: h1 :: h2 :: h3 :: h4 :: rest =>
    match hexVal h1, hexVal h2, hexVal h3, hexVal h4 with
    | some v1, some v2, some v3, some v4 =>
      if 0xD800 ≤ v1 * 4096 + v2 * 256 + v3 * 16 + v4 ∧
          v1 * 4096 + v2 * 256 + v3 * 16 + v4 ≤ 0xDBFF then
        match rest with
        | '\\' :: 'u' :: g1 :: g2 :: g3 :: g4 :: _ =>
          match hexVal g1, hexVal g2, hexVal g3, hexVal g4 with
          | some w1, some w2, some w3, some w4 =>
            if 0xDC00 ≤ w1 * 4096 + w2 * 256 + w3 * 16 + w4 ∧
                w1 * 4096 + w2 * 256 + w3 * 16 + w4 ≤ 0xDFFF then
              some (Char.ofNat (0x10000 +
                (v1 * 4096 + v2 * 256 + v3 * 16 + v4 - 0xD800) * 1024 +
                (w1 * 4096 + w2 * 256 + w3 * 16 + w4 - 0xDC00)), 11)
            else none
          | _, _, _, _ => none
        | _ => none
      else if 0xDC00 ≤ v1 * 4096 + v2 * 256 + v3 * 16 + v4 ∧
          v1 * 4096 + v2 * 256 + v3 * 16 + v4 ≤ 0xDFFF then none
      else some (Char.ofNat (v1 * 4096 + v2 * 256 + v3 * 16 + v4), 5)
    | _, _, _, _ => none
  | e :: _ =>
    if e = '"' then some ('"', 1)
    else if e = '\\' then some ('\\', 1)
    else if e = '/' then some ('/', 1)
    else if e = 'b' then some ('\x08', 1)
    else if e = 'f' then some ('\x0c', 1)
    else if e = 'n' then some ('\n', 1)
    else if e = 'r' then some ('\r', 1)
    else if e = 't' then some ('\t', 1)
    else none
  | [] => none

/-- `py_scanstring` after the opening quote: the string body (escapes decoded)
and the text after the closing quote.  A raw control character is rejected
(`strict=True`, the default `json.loads` uses). -/
def scanJString : List Char → Option (List Char × List Char)
  | [] => none
  | c :: rest =>
    if c = '"' then some ([], rest)
    else if c = '\\' then
      match readEscape rest with
      | some (ec, n) => (scanJString (rest.drop n)).map (fun p => (ec :: p.1, p.2))
      | none => none
    else if c.toNat < 0x20 then none
    else (scanJString rest).map (fun p => (c :: p.1, p.2))
termination_by l => l.length
decreasing_by
  · simp only [List.length_cons, List.length_drop]
    omega
  · simp

/-- The JSON whitespace characters. -/
def jWs (c : Char) : Bool := c = ' ' || c = '\t' || c = '\n' || c = '\r'

/-- Skip JSON whitespace. -/
def skipWs (l : List Char) : List Char := l.dropWhile jWs

/-- The integer-part group `(0|[1-9]\d*)` of the `json` NUMBER regex. -/
def parseIntDigits : List Char → Option (Nat × List Char)
  | '0' :: rest => some (0, rest)
  | c :: rest =>
    if c.isDigit then
      some (digitsVal (c :: rest.takeWhile Char.isDigit), rest.dropWhile Char.isDigit)
    else none
  | [] => none

/-- The optional fraction group `(\.\d+)?`: its digits (empty when absent). -/
def parseFrac : List Char → List Char × List Char
  | '.' :: rest =>
    if (rest.takeWhile Char.isDigit).isEmpty then ([], '.' :: rest)
    else (rest.takeWhile Char.isDigit, rest.dropWhile Char.isDigit)
  | l => ([], l)

/-- The optional exponent group `([eE][-+]?\d+)?`: sign and digits. -/
def parseExp : List Char → Option (Bool × Nat) × List Char
  | c :: rest =>
    if c = 'e' ∨ c = 'E' then
      match rest with
      | '-' :: rest2 =>
        if (rest2.takeWhile Char.isDigit).isEmpty then (none, c :: rest)
        else (some (true, digitsVal (rest2.takeWhile Char.isDigit)),
          rest2.dropWhile Char.isDigit)
      | '+' :: rest2 =>
        if (rest2.takeWhile Char.isDigit).isEmpty then (none, c :: rest)
        else (some (false, digitsVal (rest2.takeWhile Char.isDigit)),
          rest2.dropWhile Char.isDigit)
      | rest2 =>
        if (rest2.takeWhile Char.isDigit).isEmpty then (none, c :: rest)
        else (some (false, digitsVal (rest2.takeWhile Char.isDigit)),
          rest2.dropWhile Char.isDigit)
    else (none, c :: rest)
  | [] => (none, [])

/-- Build the parsed number: a Python `int` when there is no fraction and no
exponent, else a Python `float` (idealised as an exact rational). -/
def jnumVal (neg : Bool) (ip : Nat) (frac : List Char) (ex : Option (Bool × Nat)) : JVal :=
  if frac.isEmpty ∧ ex = none then .jint (if neg then -(ip : Int) else (ip : Int))
  else
    .jfloat ((if neg then -1 else 1) *
      ((ip : Rat) + (digitsVal frac : Rat) / (10 : Rat) ^ frac.length) *
      (match ex with
       | none => 1
       | some (eneg, e) => if eneg then 1 / (10 : Rat) ^ e else (10 : Rat) ^ e))

/-- The unsigned tail of the NUMBER regex. -/
def parseJNumCore (neg : Bool) (l : List Char) : Option (JVal × List Char) :=
  match parseIntDigits l with
  | some (ip, r1) =>
    match parseFrac r1 with
    | (frac, r2) =>
      match parseExp r2 with
      | (ex, r3) => some (jnumVal neg ip frac ex, r3)
  | none => none

/-- The NUMBER regex match at the start of `l`. -/
def parseJNum : List Char → Option (JVal × List Char)
  | '-' :: rest => parseJNumCore true rest
  | l => parseJNumCore false l

mutual

/-- `json` scanner `scan_once` at a value start (whitespace already skipped):
strings, objects, arrays, the three keyword literals, numbers, and the
`NaN`/`Infinity`/`-Infinity` constants.  The fuel argument only serves
structural recursion; every nested call consumes input, so the
`length + 1` budget `jsonLoads` supplies never runs out. -/
def parseVal : Nat → List Char → Option (JVal × List Char)
  | 0, _ => none
  | f + 1, l =>
    match l with
    | [] => none
    | c :: rest =>
      if c = '"' then (scanJString rest).map (fun p => (.jstr (String.mk p.1), p.2))
      else if c = obraceC then parseMembers f (skipWs rest) true []
      else if c = '[' then parseElems f (skipWs rest) true []
      else if c = 'n' then
        (match rest with
         | 'u' :: 'l' :: 'l' :: r => some (.null, r)
         | _ => none)
      else if c = 't' then
        (match rest with
         | 'r' :: 'u' :: 'e' :: r => some (.jbool true, r)
         | _ => none)
      else if c = 'f' then
        (match rest with
         | 'a' :: 'l' :: 's' :: 'e' :: r => some (.jbool false, r)
         | _ => none)
      else if c = 'N' then
        (match rest with
         | 'a' :: 'N' :: r => some (.jnan, r)
         | _ => none)
      else if c = 'I' then
        (match rest with
         | 'n' :: 'f' :: 'i' :: 'n' :: 'i' :: 't' :: 'y' :: r => some (.jinf, r)
         | _ => none)
      else if c = '-' then
        (match rest with
         | 'I' :: 'n' :: 'f' :: 'i' :: 'n' :: 'i' :: 't' :: 'y' :: r => some (.jninf, r)
         | _ => parseJNum (c :: rest))
      else parseJNum (c :: rest)

/-- `JSONObject`: after the opening brace and whitespace; `first` is whether
no member has been read yet (only then may the object close immediately).
Members accumulate in reverse in `acc`; a duplicated key would simply occur
twice, as `json.loads`'s dict build keeps the last one (no claim reads a
duplicated key back). -/
def parseMembers : Nat → List Char → Bool → List (String × JVal) →
    Option (JVal × List Char)
  | 0, _, _, _ => none
  | f + 1, l, first, acc =>
    match l with
    | [] => none
    | c :: rest =>
      if c = cbraceC ∧ first then some (.jobj acc.reverse, rest)
      else if c = '"' then
        match scanJString rest with
        | some (key, r1) =>
          match skipWs r1 with
          | ':' :: r2 =>
            match parseVal f (skipWs r2) with
            | some (v, r3) =>
              match skipWs r3 with
              | c2 :: r4 =>
                if c2 = cbraceC then
                  some (.jobj ((String.mk key, v) :: acc).reverse, r4)
                else if c2 = ',' then
                  parseMembers f (skipWs r4) false ((String.mk key, v) :: acc)
                else none
              | [] => none
            | none => none
          | _ => none
        | none => none
      else none

/-- `JSONArray`: after the opening bracket and whitespace. -/
def parseElems : Nat → List Char → Bool → List JVal → Option (JVal × List Char)
  | 0, _, _, _ => none
  | f + 1, l, first, acc =>
    if l.head? = some ']' ∧ first then some (.jarr acc.reverse, l.tail)
    else
      match parseVal f l with
      | some (v, r1) =>
        match skipWs r1 with
        | c2 :: r2 =>
          if c2 = ']' then some (.jarr (v :: acc).reverse, r2)
          else if c2 = ',' then parseElems f (skipWs r2) false (v :: acc)
          else none
        | [] => none
      | none => none

end

/-- `json.loads`: skip leading whitespace, read one value, require only
whitespace after it. -/
def jsonLoads (l : List Char) : Option JVal :=
  match parseVal (l.length + 1) (skipWs l) with
  | some (v, rest) => if (skipWs rest).isEmpty then some v else none
  | none => none

/-- Model of `server.decode_id`: re-pad, url-safe base64 decode (which first
requires the str to be ASCII, as `b64decode` encodes it), strict UTF-8 decode,
`json.loads`.  Each stage's failure is the exception Python raises there. -/
def decode_id (enc : String) : Except PyErr JVal :=
  if enc.data.any (fun c => 0x80 ≤ c.toNat) then .error .valueError
  else
    match b64DecodeBytes (enc.data ++
        List.replicate ((4 - enc.length % 4) % 4) '=') with
    | none => .error .binasciiError
    | some bytes =>
      match utf8Decode bytes with
      | none => .error .unicodeDecodeError
      | some chars =>
        match jsonLoads chars with
        | none => .error .jsonDecodeError
        | some v => .ok v

/-- Outcome of the `t=get` branch of `server.api`. -/
inductive GetOut where
  | missingId
  | sampleNzb
  | proxied (hash filename ext : JVal)

/-- Model of the `t=get` branch of `server.api` (lines 409-450, up to the
point where the upstream NZB generation request is issued — the network
exchange itself is outside every claim).  A missing or empty `id` yields the
400 response; `decode_id` is NOT wrapped in try/except, so its exceptions
propagate (`.error`, which the framework turns into a generic 500); a decoded
non-dict crashes on `d.get("sample")`; missing hash/filename/ext crash in
`to_search_item`. -/
def api_get (idParam : Option String) : Except PyErr GetOut :=
  match idParam with
  | none => .ok .missingId
  | some enc =>
    if enc = "" then .ok .missingId
    else
      match decode_id enc with
      | .error e => .error e
      | .ok d =>
        match d with
        | .jobj kv =>
          if pyTruthy (objGet kv "sample") then .ok .sampleNzb
          else if objHas kv "hash" ∧ objHas kv "filename" ∧ objHas kv "ext" then
            .ok (.proxied (objGet kv "hash") (objGet kv "filename") (objGet kv "ext"))
          else .error .keyError
        | _ => .error .attributeError

/-! ### Round trip of `decode_id` over `encode_id` -/

/-- Rebuilding a string from its character list. -/
theorem strMk_data (s : String) : String.mk s.data = s := rfl

/-- `hexVal` inverts `hexDigit` on one hex digit. -/
theorem hexVal_hexDigit : ∀ n : Fin 16, hexVal (hexDigit n.val) = some n.val := by
  decide

/-- Escaping distributes over cons. -/
theorem jsonEscape_cons (c : Char) (l : List Char) :
    jsonEscape (c :: l) = jsonEscapeChar c ++ jsonEscape l := rfl

/-- `py_scanstring` inverts `json.dumps` escaping: scanning the escaped body
followed by the closing quote recovers the original characters. -/
theorem scanJString_escape : ∀ (cs rest : List Char),
    scanJString (jsonEscape cs ++ '"' :: rest) = some (cs, rest)
  | [], rest => by
    show scanJString ('"' :: rest) = some ([], rest)
    simp only [scanJString]
    rw [if_true]
  | c :: cs, rest => by
    have ih := scanJString_escape cs rest
    rw [jsonEscape_cons, List.append_assoc]
    by_cases h1 : c = '"'
    · subst h1
      show scanJString ('\\' :: '"' :: (jsonEscape cs ++ '"' :: rest)) = _
      simp only [scanJString]
      rw [if_true,
        show readEscape ('"' :: (jsonEscape cs ++ '"' :: rest)) = some ('"', 1) from rfl]
      dsimp only
      simp only [List.drop_succ_cons, List.drop_zero]
      rw [ih]
      rfl
    by_cases h2 : c = '\\'
    · subst h2
      show scanJString ('\\' :: '\\' :: (jsonEscape cs ++ '"' :: rest)) = _
      simp only [scanJString]
      rw [if_true,
        show readEscape ('\\' :: (jsonEscape cs ++ '"' :: rest)) = some ('\\', 1) from rfl]
      dsimp only
      simp only [List.drop_succ_cons, List.drop_zero]
      rw [ih]
      rfl
    by_cases h3 : c = '\x08'
    · subst h3
      show scanJString ('\\' :: 'b' :: (jsonEscape cs ++ '"' :: rest)) = _
      simp only [scanJString]
      rw [if_true,
        show readEscape ('b' :: (jsonEscape cs ++ '"' :: rest)) = some ('\x08', 1) from rfl]
      dsimp only
      simp only [List.drop_succ_cons, List.drop_zero]
      rw [ih]
      rfl
    by_cases h4 : c = '\x0c'
    · subst h4
      show scanJString ('\\' :: 'f' :: (jsonEscape cs ++ '"' :: rest)) = _
      simp only [scanJString]
      rw [if_true,
        show readEscape ('f' :: (jsonEscape cs ++ '"' :: rest)) = some ('\x0c', 1) from rfl]
      dsimp only
      simp only [List.drop_succ_cons, List.drop_zero]
      rw [ih]
      rfl
    by_cases h5 : c = '\n'
    · subst h5
      show scanJString ('\\' :: 'n' :: (jsonEscape cs ++ '"' :: rest)) = _
      simp only [scanJString]
      rw [if_true,
        show readEscape ('n' :: (jsonEscape cs ++ '"' :: rest)) = some ('\n', 1) from rfl]
      dsimp only
      simp only [List.drop_succ_cons, List.drop_zero]
      rw [ih]
      rfl
    by_cases h6 : c = '\r'
    · subst h6
      show scanJString ('\\' :: 'r' :: (jsonEscape cs ++ '"' :: rest)) = _
      simp only [scanJString]
      rw [if_true,
        show readEscape ('r' :: (jsonEscape cs ++ '"' :: rest)) = some ('\r', 1) from rfl]
      dsimp only
      simp only [List.drop_succ_cons, List.drop_zero]
      rw [ih]
      rfl
    by_cases h7 : c = '\t'
    · subst h7
      show scanJString ('\\' :: 't' :: (jsonEscape cs ++ '"' :: rest)) = _
      simp only [scanJString]
      rw [if_true,
        show readEscape ('t' :: (jsonEscape cs ++ '"' :: rest)) = some ('\t', 1) from rfl]
      dsimp only
      simp only [List.drop_succ_cons, List.drop_zero]
      rw [ih]
      rfl
    by_cases h8 : c.toNat < 0x20
    · have hesc : jsonEscapeChar c =
          ['\\', 'u', '0', '0', hexDigit (c.toNat / 16), hexDigit (c.toNat % 16)] := by
        unfold jsonEscapeChar
        rw [if_neg h1, if_neg h2, if_neg h3, if_neg h4, if_neg h5, if_neg h6,
          if_neg h7, if_pos h8]
      rw [hesc]
      have hd1 : hexVal (hexDigit (c.toNat / 16)) = some (c.toNat / 16) :=
        hexVal_hexDigit ⟨c.toNat / 16, by omega⟩
      have hd2 : hexVal (hexDigit (c.toNat % 16)) = some (c.toNat % 16) :=
        hexVal_hexDigit ⟨c.toNat % 16, by omega⟩
      have hre : readEscape ('u' :: '0' :: '0' :: hexDigit (c.toNat / 16) ::
          hexDigit (c.toNat % 16) :: (jsonEscape cs ++ '"' :: rest)) = some (c, 5) := by
        simp only [readEscape]
        rw [show hexVal '0' = some 0 from rfl, hd1, hd2]
        dsimp only
        rw [if_neg (by omega), if_neg (by omega)]
        rw [show 0 * 4096 + 0 * 256 + c.toNat / 16 * 16 + c.toNat % 16 = c.toNat from
          by omega]
        rw [Char.ofNat_toNat]
      show scanJString ('\\' :: 'u' :: '0' :: '0' :: hexDigit (c.toNat / 16) ::
        hexDigit (c.toNat % 16) :: (jsonEscape cs ++ '"' :: rest)) = _
      simp only [scanJString]
      rw [if_true, hre]
      dsimp only
      simp only [List.drop_succ_cons, List.drop_zero]
      rw [ih]
      rfl
    · have hesc : jsonEscapeChar c = [c] := by
        unfold jsonEscapeChar
        rw [if_neg h1, if_neg h2, if_neg h3, if_neg h4, if_neg h5, if_neg h6,
          if_neg h7, if_neg h8]
      rw [hesc, List.singleton_append]
      simp only [scanJString]
      rw [if_neg h1, if_neg h2, if_neg h8, ih]
      rfl

/-- A non-whitespace head stops the whitespace skipper. -/
theorem skipWs_cons_neg {c : Char} (l : List Char) (h : jWs c = false) :
    skipWs (c :: l) = c :: l := by
  simp [skipWs, List.dropWhile_cons, h]

/-- A space is skipped. -/
theorem skipWs_space (l : List Char) : skipWs (' ' :: l) = skipWs l := by
  simp [skipWs, List.dropWhile_cons, jWs]

/-- Text starting with a string literal has no leading whitespace. -/
theorem skipWs_jstrLit (s : String) (l : List Char) :
    skipWs (jstrLit s ++ l) = jstrLit s ++ l :=
  skipWs_cons_neg _ (by decide)

/-- Text starting with `null` or a string literal has no leading whitespace. -/
theorem skipWs_nullOrStr (o : Option String) (l : List Char) :
    skipWs (jsonNullOrStr o ++ l) = jsonNullOrStr o ++ l := by
  cases o with
  | none => exact skipWs_cons_neg _ (by decide)
  | some s => exact skipWs_jstrLit s l

/-- A string literal parses to its string under any positive fuel. -/
theorem parseVal_str (f : Nat) (s : String) (rest : List Char) :
    parseVal (f + 1) (jstrLit s ++ rest) = some (.jstr s, rest) := by
  have hshape : jstrLit s ++ rest = '"' :: (jsonEscape s.data ++ '"' :: rest) := by
    simp [jstrLit, List.append_assoc]
  rw [hshape]
  simp only [parseVal]
  rw [if_true, scanJString_escape s.data rest]
  simp [strMk_data]

/-- The `null` literal parses under any positive fuel. -/
theorem parseVal_null (f : Nat) (rest : List Char) :
    parseVal (f + 1) ("null".data ++ rest) = some (.null, rest) := by
  show parseVal (f + 1) ('n' :: 'u' :: 'l' :: 'l' :: rest) = _
  simp only [parseVal]
  rw [if_neg (show ¬('n' = '"') from by decide),
    if_neg (show ¬('n' = obraceC) from by decide),
    if_neg (show ¬('n' = '[') from by decide), if_true]

/-- The `true` literal parses under any positive fuel. -/
theorem parseVal_true (f : Nat) (rest : List Char) :
    parseVal (f + 1) ("true".data ++ rest) = some (.jbool true, rest) := by
  show parseVal (f + 1) ('t' :: 'r' :: 'u' :: 'e' :: rest) = _
  simp only [parseVal]
  rw [if_neg (show ¬('t' = '"') from by decide),
    if_neg (show ¬('t' = obraceC) from by decide),
    if_neg (show ¬('t' = '[') from by decide),
    if_neg (show ¬('t' = 'n') from by decide), if_true]

/-- An optional-string field body parses to its `JVal` form. -/
theorem parseVal_nullOrStr (f : Nat) (o : Option String) (rest : List Char) :
    parseVal (f + 1) (jsonNullOrStr o ++ rest) = some (optStrJ o, rest) := by
  cases o with
  | none => exact parseVal_null f rest
  | some s => exact parseVal_str f s rest

/-- Suffix of the payload text from the `"title"` key on. -/
def tailTitle (r : DownloadReference) : List Char :=
  jstrLit "title" ++ ':' :: ' ' ::
    (jsonNullOrStr r.title ++
      (if r.sample then
        ',' :: ' ' :: (jstrLit "sample" ++ ':' :: ' ' :: ("true".data ++ [cbraceC]))
      else [cbraceC]))

/-- Suffix of the payload text from the `"sig"` key on. -/
def tailSig (r : DownloadReference) : List Char :=
  jstrLit "sig" ++ ':' :: ' ' :: (jsonNullOrStr r.sig ++ ',' :: ' ' :: tailTitle r)

/-- Suffix of the payload text from the `"ext"` key on. -/
def tailExt (r : DownloadReference) : List Char :=
  jstrLit "ext" ++ ':' :: ' ' :: (jstrLit r.ext ++ ',' :: ' ' :: tailSig r)

/-- Suffix of the payload text from the `"filename"` key on. -/
def tailFn (r : DownloadReference) : List Char :=
  jstrLit "filename" ++ ':' :: ' ' :: (jstrLit r.filename ++ ',' :: ' ' :: tailExt r)

/-- Suffix of the payload text from the `"hash"` key on. -/
def tailHash (r : DownloadReference) : List Char :=
  jstrLit "hash" ++ ':' :: ' ' :: (jstrLit r.hash ++ ',' :: ' ' :: tailFn r)

/-- Leading whitespace lemmas for each suffix. -/
theorem skipWs_tailTitle (r : DownloadReference) :
    skipWs (tailTitle r) = tailTitle r := skipWs_jstrLit _ _

/-- See `skipWs_tailTitle`. -/
theorem skipWs_tailSig (r : DownloadReference) :
    skipWs (tailSig r) = tailSig r := skipWs_jstrLit _ _

/-- See `skipWs_tailTitle`. -/
theorem skipWs_tailExt (r : DownloadReference) :
    skipWs (tailExt r) = tailExt r := skipWs_jstrLit _ _

/-- See `skipWs_tailTitle`. -/
theorem skipWs_tailFn (r : DownloadReference) :
    skipWs (tailFn r) = tailFn r := skipWs_jstrLit _ _

/-- See `skipWs_tailTitle`. -/
theorem skipWs_tailHash (r : DownloadReference) :
    skipWs (tailHash r) = tailHash r := skipWs_jstrLit _ _

/-- One member followed by a comma: the member parser reads the key, the
colon-space, the value, the comma-space, and recurses. -/
theorem pm_step_more (f : Nat) (k : String) (vr tail : List Char) (v : JVal)
    (acc : List (String × JVal)) (first : Bool)
    (hv : parseVal (f + 1) vr = some (v, ',' :: ' ' :: tail))
    (hvr : skipWs vr = vr) (htail : skipWs tail = tail) :
    parseMembers (f + 1 + 1) (jstrLit k ++ ':' :: ' ' :: vr) first acc =
      parseMembers (f + 1) tail false ((k, v) :: acc) := by
  have hshape : jstrLit k ++ ':' :: ' ' :: vr =
      '"' :: (jsonEscape k.data ++ '"' :: (':' :: ' ' :: vr)) := by
    simp [jstrLit, List.append_assoc]
  rw [hshape]
  conv_lhs => simp only [parseMembers]
  rw [if_neg (show ¬('"' = cbraceC ∧ first = true) from
    fun hcon => absurd hcon.1 (by decide))]
  rw [if_true]
  rw [scanJString_escape k.data (':' :: ' ' :: vr)]
  try simp only []
  rw [skipWs_cons_neg _ (show jWs ':' = false from by decide)]
  try simp only []
  rw [skipWs_space, hvr, hv]
  try simp only []
  rw [skipWs_cons_neg _ (show jWs ',' = false from by decide)]
  try simp only []
  rw [if_neg (show ¬(',' = cbraceC) from by decide)]
  rw [if_true]
  rw [skipWs_space, htail, strMk_data]
  conv_rhs => simp only [parseMembers]
  try rfl

/-- The final member: the value is followed directly by the closing brace, so
the accumulated object is returned. -/
theorem pm_step_last (f : Nat) (k : String) (vr tail : List Char) (v : JVal)
    (acc : List (String × JVal)) (first : Bool)
    (hv : parseVal (f + 1) vr = some (v, cbraceC :: tail))
    (hvr : skipWs vr = vr) :
    parseMembers (f + 1 + 1) (jstrLit k ++ ':' :: ' ' :: vr) first acc =
      some (.jobj ((k, v) :: acc).reverse, tail) := by
  have hshape : jstrLit k ++ ':' :: ' ' :: vr =
      '"' :: (jsonEscape k.data ++ '"' :: (':' :: ' ' :: vr)) := by
    simp [jstrLit, List.append_assoc]
  rw [hshape]
  conv_lhs => simp only [parseMembers]
  rw [if_neg (show ¬('"' = cbraceC ∧ first = true) from
    fun hcon => absurd hcon.1 (by decide))]
  rw [if_true]
  rw [scanJString_escape k.data (':' :: ' ' :: vr)]
  try simp only []
  rw [skipWs_cons_neg _ (show jWs ':' = false from by decide)]
  try simp only []
  rw [skipWs_space, hvr, hv]
  try simp only []
  rw [skipWs_cons_neg _ (show jWs cbraceC = false from by decide)]
  try simp only []
  rw [if_true]
  try rw [strMk_data]

/-- Parsing the payload from its `"title"` member on. -/
theorem pm_title (r : DownloadReference) (g : Nat) (acc : List (String × JVal))
    (first : Bool) :
    parseMembers (g + 3) (tailTitle r) first acc =
      some (.jobj (acc.reverse ++ ("title", optStrJ r.title) ::
        (if r.sample then [("sample", JVal.jbool true)] else [])), []) := by
  cases hs : r.sample with
  | false =>
    have ht : tailTitle r = jstrLit "title" ++ ':' :: ' ' ::
        (jsonNullOrStr r.title ++ (cbraceC :: [])) := by
      unfold tailTitle
      rw [hs, if_neg (show ¬(false = true) from by decide)]
    rw [ht, show g + 3 = (g + 1) + 1 + 1 from rfl]
    rw [pm_step_last (g + 1) "title" (jsonNullOrStr r.title ++ (cbraceC :: [])) []
      (optStrJ r.title) acc first
      (parseVal_nullOrStr (g + 1) r.title (cbraceC :: []))
      (skipWs_nullOrStr r.title (cbraceC :: []))]
    simp
  | true =>
    have ht : tailTitle r = jstrLit "title" ++ ':' :: ' ' ::
        (jsonNullOrStr r.title ++ ',' :: ' ' ::
          (jstrLit "sample" ++ ':' :: ' ' :: ("true".data ++ (cbraceC :: [])))) := by
      unfold tailTitle
      rw [hs, if_pos rfl]
    rw [ht, show g + 3 = (g + 1) + 1 + 1 from rfl]
    rw [pm_step_more (g + 1) "title"
      (jsonNullOrStr r.title ++ ',' :: ' ' ::
        (jstrLit "sample" ++ ':' :: ' ' :: ("true".data ++ (cbraceC :: []))))
      (jstrLit "sample" ++ ':' :: ' ' :: ("true".data ++ (cbraceC :: [])))
      (optStrJ r.title) acc first
      (parseVal_nullOrStr (g + 1) r.title _)
      (skipWs_nullOrStr r.title _)
      (skipWs_jstrLit "sample" _)]
    rw [pm_step_last g "sample" ("true".data ++ (cbraceC :: [])) []
      (JVal.jbool true) (("title", optStrJ r.title) :: acc) false
      (parseVal_true g (cbraceC :: []))
      (skipWs_cons_neg _ (by decide))]
    simp

/-- Parsing the payload from its `"sig"` member on. -/
theorem pm_sig (r : DownloadReference) (g : Nat) (acc : List (String × JVal))
    (first : Bool) :
    parseMembers (g + 4) (tailSig r) first acc =
      some (.jobj (acc.reverse ++ ("sig", optStrJ r.sig) ::
        ("title", optStrJ r.title) ::
        (if r.sample then [("sample", JVal.jbool true)] else [])), []) := by
  rw [show tailSig r = jstrLit "sig" ++ ':' :: ' ' ::
      (jsonNullOrStr r.sig ++ ',' :: ' ' :: tailTitle r) from rfl]
  rw [show g + 4 = (g + 2) + 1 + 1 from rfl]
  rw [pm_step_more (g + 2) "sig" (jsonNullOrStr r.sig ++ ',' :: ' ' :: tailTitle r)
    (tailTitle r) (optStrJ r.sig) acc first
    (parseVal_nullOrStr (g + 2) r.sig _)
    (skipWs_nullOrStr r.sig _)
    (skipWs_tailTitle r)]
  rw [show (g + 2) + 1 = g + 3 from rfl]
  rw [pm_title r g (("sig", optStrJ r.sig) :: acc) false]
  simp

/-- Parsing the payload from its `"ext"` member on. -/
theorem pm_ext (r : DownloadReference) (g : Nat) (acc : List (String × JVal))
    (first : Bool) :
    parseMembers (g + 5) (tailExt r) first acc =
      some (.jobj (acc.reverse ++ ("ext", JVal.jstr r.ext) ::
        ("sig", optStrJ r.sig) :: ("title", optStrJ r.title) ::
        (if r.sample then [("sample", JVal.jbool true)] else [])), []) := by
  rw [show tailExt r = jstrLit "ext" ++ ':' :: ' ' ::
      (jstrLit r.ext ++ ',' :: ' ' :: tailSig r) from rfl]
  rw [show g + 5 = (g + 3) + 1 + 1 from rfl]
  rw [pm_step_more (g + 3) "ext" (jstrLit r.ext ++ ',' :: ' ' :: tailSig r)
    (tailSig r) (JVal.jstr r.ext) acc first
    (parseVal_str (g + 3) r.ext _)
    (skipWs_jstrLit r.ext _)
    (skipWs_tailSig r)]
  rw [show (g + 3) + 1 = g + 4 from rfl]
  rw [pm_sig r g (("ext", JVal.jstr r.ext) :: acc) false]
  simp

/-- Parsing the payload from its `"filename"` member on. -/
theorem pm_fn (r : DownloadReference) (g : Nat) (acc : List (String × JVal))
    (first : Bool) :
    parseMembers (g + 6) (tailFn r) first acc =
      some (.jobj (acc.reverse ++ ("filename", JVal.jstr r.filename) ::
        ("ext", JVal.jstr r.ext) :: ("sig", optStrJ r.sig) ::
        ("title", optStrJ r.title) ::
        (if r.sample then [("sample", JVal.jbool true)] else [])), []) := by
  rw [show tailFn r = jstrLit "filename" ++ ':' :: ' ' ::
      (jstrLit r.filename ++ ',' :: ' ' :: tailExt r) from rfl]
  rw [show g + 6 = (g + 4) + 1 + 1 from rfl]
  rw [pm_step_more (g + 4) "filename"
    (jstrLit r.filename ++ ',' :: ' ' :: tailExt r)
    (tailExt r) (JVal.jstr r.filename) acc first
    (parseVal_str (g + 4) r.filename _)
    (skipWs_jstrLit r.filename _)
    (skipWs_tailExt r)]
  rw [show (g + 4) + 1 = g + 5 from rfl]
  rw [pm_ext r g (("filename", JVal.jstr r.filename) :: acc) false]
  simp

/-- Parsing the payload from its `"hash"` member on. -/
theorem pm_hash (r : DownloadReference) (g : Nat) (acc : List (String × JVal))
    (first : Bool) :
    parseMembers (g + 7) (tailHash r) first acc =
      some (.jobj (acc.reverse ++ ("hash", JVal.jstr r.hash) ::
        ("filename", JVal.jstr r.filename) :: ("ext", JVal.jstr r.ext) ::
        ("sig", optStrJ r.sig) :: ("title", optStrJ r.title) ::
        (if r.sample then [("sample", JVal.jbool true)] else [])), []) := by
  rw [show tailHash r = jstrLit "hash" ++ ':' :: ' ' ::
      (jstrLit r.hash ++ ',' :: ' ' :: tailFn r) from rfl]
  rw [show g + 7 = (g + 5) + 1 + 1 from rfl]
  rw [pm_step_more (g + 5) "hash" (jstrLit r.hash ++ ',' :: ' ' :: tailFn r)
    (tailFn r) (JVal.jstr r.hash) acc first
    (parseVal_str (g + 5) r.hash _)
    (skipWs_jstrLit r.hash _)
    (skipWs_tailFn r)]
  rw [show (g + 5) + 1 = g + 6 from rfl]
  rw [pm_fn r g (("hash", JVal.jstr r.hash) :: acc) false]
  simp

/-- The whole serialized payload parses to its `JVal` form under any fuel of
the shape `g + 8`. -/
theorem parseVal_payload (r : DownloadReference) (g : Nat) :
    parseVal (g + 8) (dumpsPayload r) = some (payloadJVal r, []) := by
  rw [show dumpsPayload r = obraceC :: tailHash r from rfl]
  rw [show g + 8 = (g + 7) + 1 from rfl]
  simp only [parseVal]
  rw [if_neg (show ¬(obraceC = '"') from by decide)]
  rw [if_true]
  rw [skipWs_tailHash r]
  rw [pm_hash r g [] true]
  simp [payloadJVal]

/-- `json.loads` of the serialized payload. -/
theorem jsonLoads_dumps (r : DownloadReference) :
    jsonLoads (dumpsPayload r) = some (payloadJVal r) := by
  have hlen7 : 7 ≤ (dumpsPayload r).length := by
    rw [show dumpsPayload r = obraceC :: tailHash r from rfl]
    rw [show tailHash r = jstrLit "hash" ++ ':' :: ' ' ::
        (jstrLit r.hash ++ ',' :: ' ' :: tailFn r) from rfl]
    rw [show jstrLit "hash" = ['"', 'h', 'a', 's', 'h', '"'] from rfl]
    simp only [List.length_cons, List.length_append]
    omega
  obtain ⟨g, hg⟩ : ∃ g, (dumpsPayload r).length + 1 = g + 8 :=
    ⟨(dumpsPayload r).length - 7, by omega⟩
  unfold jsonLoads
  rw [hg]
  rw [show skipWs (dumpsPayload r) = dumpsPayload r from by
    rw [show dumpsPayload r = obraceC :: tailHash r from rfl]
    exact skipWs_cons_neg _ (by decide)]
  rw [parseVal_payload r g]
  rfl

/-- Every UTF-8 byte the encoder emits is below 256. -/
theorem utf8Encode_lt (l : List Char) : ∀ b ∈ utf8Encode l, b < 256 := by
  induction l with
  | nil =>
    intro b hb
    simp [utf8Encode] at hb
  | cons c t ih =>
    intro b hb
    rw [show utf8Encode (c :: t) = utf8EncodeChar c ++ utf8Encode t from rfl] at hb
    rcases List.mem_append.mp hb with h | h
    · have hvr : c.toNat < 0x110000 := by
        have hv : Nat.isValidChar c.toNat := c.valid
        rcases hv with h1 | ⟨_, h2⟩ <;> omega
      unfold utf8EncodeChar at h
      by_cases h1 : c.toNat < 0x80
      · rw [if_pos h1] at h
        simp at h
        omega
      · rw [if_neg h1] at h
        by_cases h2 : c.toNat < 0x800
        · rw [if_pos h2] at h
          simp at h
          rcases h with rfl | rfl <;> omega
        · rw [if_neg h2] at h
          by_cases h3 : c.toNat < 0x10000
          · rw [if_pos h3] at h
            simp at h
            rcases h with rfl | rfl | rfl <;> omega
          · rw [if_neg h3] at h
            simp at h
            rcases h with rfl | rfl | rfl | rfl <;> omega
    · exact ih b h

/-- Full codec round trip: `decode_id` recovers the payload `encode_id`
serialized. -/
theorem decode_encode_id (r : DownloadReference) :
    decode_id (encode_id r) = .ok (payloadJVal r) := by
  have hbytes : ∀ b ∈ utf8Encode (dumpsPayload r), b < 256 := utf8Encode_lt _
  obtain ⟨hchars, hpad⟩ := b64Encode_strip_spec (utf8Encode (dumpsPayload r)) hbytes
  have hdata : (encode_id r).data =
      rstripEq (b64EncodeBytes (utf8Encode (dumpsPayload r))) := rfl
  have hlen : (encode_id r).length =
      (rstripEq (b64EncodeBytes (utf8Encode (dumpsPayload r)))).length := rfl
  unfold decode_id
  rw [hdata, hlen]
  rw [if_neg (show ¬((rstripEq (b64EncodeBytes (utf8Encode (dumpsPayload r)))).any
      (fun c => 0x80 ≤ c.toNat) = true) from by
    intro hA
    rcases List.any_eq_true.mp hA with ⟨c, hc, hge⟩
    have h1 := urlsafe_ascii (hchars c hc).1
    simp at hge
    omega)]
  rw [hpad, b64_roundtrip _ hbytes]
  dsimp only
  rw [utf8Decode_encode]
  dsimp only
  rw [jsonLoads_dumps]

/-- `optStrJ` separates `None` from strings, injectively. -/
theorem optStrJ_eq_iff (o₁ o₂ : Option String) :
    optStrJ o₁ = optStrJ o₂ ↔ o₁ = o₂ := by
  cases o₁ <;> cases o₂ <;> simp [optStrJ]

/-- The payload value determines the reference record. -/
theorem payloadJVal_inj (r₁ r₂ : DownloadReference)
    (h : payloadJVal r₁ = payloadJVal r₂) : r₁ = r₂ := by
  cases r₁ with
  | mk a1 b1 c1 d1 e1 f1 =>
    cases r₂ with
    | mk a2 b2 c2 d2 e2 f2 =>
      simp only [payloadJVal] at h
      cases f1 <;> cases f2 <;> simp_all [optStrJ_eq_iff]

/-- C2: the reference codec round-trips — `decode_id (encode_id r)` succeeds
and returns exactly the payload object of `r` (and that object determines `r`,
so no two records collide) — and every character of the encoded id is from the
URL-safe base64 alphabet with the `=` padding stripped. -/
theorem C2_roundtrip :
    (∀ r : DownloadReference, decode_id (encode_id r) = .ok (payloadJVal r)) ∧
    (∀ r₁ r₂ : DownloadReference, payloadJVal r₁ = payloadJVal r₂ → r₁ = r₂) ∧
    (∀ r : DownloadReference, ∀ c ∈ (encode_id r).data,
      isUrlSafeChar c = true ∧ c ≠ '=') := by
  refine ⟨decode_encode_id, payloadJVal_inj, ?_⟩
  intro r c hc
  exact (b64Encode_strip_spec (utf8Encode (dumpsPayload r)) (utf8Encode_lt _)).1 c hc

/-- Witness for `C2_roundtrip` at a concrete record and a concrete character
of its encoding. -/
theorem C2_roundtrip_witness :
    ((⟨"abc123", "file", ".mkv", none, some "T", false⟩ : DownloadReference) =
      ⟨"abc123", "file", ".mkv", none, some "T", false⟩) ∧
    (isUrlSafeChar 'e' = true ∧ 'e' ≠ '=') :=
  ⟨C2_roundtrip.2.1 ⟨"abc123", "file", ".mkv", none, some "T", false⟩
      ⟨"abc123", "file", ".mkv", none, some "T", false⟩ rfl,
    C2_roundtrip.2.2 ⟨"abc123", "file", ".mkv", none, some "T", false⟩ 'e'
      (by decide)⟩

/-- C3 counterexample: `decode_id` does not signal a decoding error on every
malformed reference — `"NQ"` decodes cleanly to the integer `5` — and the
`t=get` entry point has no distinguishable bad-reference handling: on `"NQ"`
it crashes with `AttributeError` (`d.get` on an `int`), and on `"Tk9QRQ"`
(which decodes to the non-JSON text `NOPE`) the `JSONDecodeError` escapes
`decode_id` uncaught. -/
theorem C3_counterexample :
    decode_id "NQ" = .ok (.jint 5) ∧
    api_get (some "NQ") = .error .attributeError ∧
    api_get (some "Tk9QRQ") = .error .jsonDecodeError ∧
    api_get none = .ok .missingId :=
  ⟨rfl, rfl, rfl, rfl⟩

/-- C3 amended: the only request-level bad-reference handling is the 400 for a
missing or empty `id`; any exception `decode_id` raises on a non-empty `id`
propagates out of the entry point unchanged (no `MalformedReference`
condition); and ids produced by `encode_id` always decode successfully. -/
theorem C3_amended :
    (api_get none = .ok .missingId ∧ api_get (some "") = .ok .missingId) ∧
    (∀ (enc : String) (e : PyErr), enc ≠ "" → decode_id enc = .error e →
      api_get (some enc) = .error e) ∧
    (∀ r : DownloadReference, decode_id (encode_id r) = .ok (payloadJVal r)) := by
  refine ⟨⟨rfl, rfl⟩, ?_, decode_encode_id⟩
  intro enc e hne hdec
  unfold api_get
  simp only []
  rw [if_neg hne, hdec]

/-- Witness for `C3_amended` at the concrete malformed id `"Tk9QRQ"`. -/
theorem C3_amended_witness :
    ("Tk9QRQ" : String) ≠ "" ∧ decode_id "Tk9QRQ" = .error .jsonDecodeError ∧
    api_get (some "Tk9QRQ") = .error .jsonDecodeError :=
  ⟨by decide, rfl, C3_amended.2.1 "Tk9QRQ" .jsonDecodeError (by decide) rfl⟩

end EZBridge